import Mathlib

/-!
Verification of the optics/numerics core of the shg-cavity-calculator
repository: the Gaussian-beam algebra (gaussian_beam module) and the bow-tie
cavity solver (cavity module).  Machine reals are modelled by the real
numbers, the complex beam parameter by a complex number, and the two
raised error conditions by an explicit error type threaded through Except.
Division by zero is total (returns 0), mirroring the fact that all claims
under consideration only constrain the code on inputs where the divisors
are nonzero, except where a claim is explicitly about a vanishing divisor.
-/

set_option maxHeartbeats 1600000

noncomputable section

/-- The eight-field parameter record described by the cavity module
docstring: focal length f, crystal length l, mirror-to-secondary-focus
distance v, mirror-to-crystal distance s, refractive index eta, angle of
incidence alpha, wavelength, and the Brewster/plane crystal-cut flag. -/
structure CavityParameters where
  f : ℝ
  l : ℝ
  v : ℝ
  s : ℝ
  eta : ℝ
  alpha : ℝ
  wavelength : ℝ
  Brewster : Bool

/-- A 2x2 real ABCD transfer matrix [[A,B],[C,D]]. -/
structure TransferMatrix where
  A : ℝ
  B : ℝ
  C : ℝ
  D : ℝ

/-- Determinant A*D - B*C of a transfer matrix. -/
def TransferMatrix.det (M : TransferMatrix) : ℝ := M.A * M.D - M.B * M.C

/-! gaussian_beam module -/

/-- gaussian_beam.propagate: the bilinear ABCD transform
eta2*(A*q/eta1 + B)/(C*q/eta1 + D). -/
def propagate (q_parameter : ℂ) (matrix : TransferMatrix) (eta2 eta1 : ℝ) : ℂ :=
  (eta2 : ℂ) * (matrix.A * q_parameter / eta1 + matrix.B) /
    (matrix.C * q_parameter / eta1 + matrix.D)

/-- gaussian_beam.get_r: wavefront curvature 1/Re(1/q). -/
def get_r (q_parameter : ℂ) : ℝ := ((q_parameter⁻¹).re)⁻¹

/-- gaussian_beam.get_w: beam waist sqrt(-wavelength/(pi*eta*Im(1/q))),
clamped to 0 when the radicand is negative. -/
def get_w (q_parameter : ℂ) (eta wavelength : ℝ) : ℝ :=
  let inner := -wavelength / (Real.pi * eta * (q_parameter⁻¹).im)
  if inner < 0 then 0 else Real.sqrt inner

/-- gaussian_beam.get_b: confocal parameter -2/Im(1/q). -/
def get_b (q_parameter : ℂ) : ℝ := -2 / (q_parameter⁻¹).im

/-- gaussian_beam.get_m: the half-trace stability factor (A+D)/2. -/
def get_m (matrix : TransferMatrix) : ℝ := (matrix.A + matrix.D) / 2

/-- Principal branch of the complex square root (numpy np.sqrt on a
complex argument): z^(1/2) via the principal complex power. -/
def np_sqrt (z : ℂ) : ℂ := z ^ ((1 : ℂ) / 2)

/-- gaussian_beam.calculate_eigenmode:
q = 2*B*eta / (-A + D + sqrt((-2+A+D)*(2+A+D))), the square root taken
over the complexified argument. -/
def calculate_eigenmode (matrix : TransferMatrix) (eta : ℝ) : ℂ :=
  ((2 * matrix.B * eta : ℝ) : ℂ) / (-(matrix.A : ℂ) + (matrix.D : ℂ) +
    np_sqrt (((-2 + matrix.A + matrix.D : ℝ) : ℂ) * ((2 + matrix.A + matrix.D : ℝ) : ℂ)))

/-! cavity module -/

/-- cavity.s_bounds_tangential: the two tangential-plane stability
roots for s, sorted ascending; the Brewster branch replaces eta by eta^3
in the crystal path length.  The division in the second root is
totalized (0 at a zero denominator), which diverges from the source's
numpy semantics exactly at -f + v/cos(alpha) = 0; the extended-real
variant s_bounds_tangential_np below models the source's signed
infinity there and agrees with this definition everywhere else. -/
def s_bounds_tangential (p : CavityParameters) : ℝ × ℝ :=
  let s1 : ℝ :=
    if p.Brewster then -(p.l / (2 * p.eta ^ 3)) + p.f * Real.cos p.alpha
    else -p.l / (2 * p.eta) + p.f * Real.cos p.alpha
  let s2 : ℝ :=
    if p.Brewster then
      -(p.l / (2 * p.eta ^ 3)) + (p.f * p.v) / (-p.f + p.v * (Real.cos p.alpha)⁻¹)
    else -p.l / (2 * p.eta) + (p.f * p.v) / (-p.f + p.v * (Real.cos p.alpha)⁻¹)
  (min s1 s2, max s1 s2)

/-- cavity.s_bounds_sagittal: the two sagittal-plane stability roots for
s, sorted ascending.  As with the tangential bounds, the division in
the second root is totalized, diverging from the source's numpy
semantics exactly at -f + v*cos(alpha) = 0; s_bounds_sagittal_np below
models the source's signed infinity there. -/
def s_bounds_sagittal (p : CavityParameters) : ℝ × ℝ :=
  let s1 : ℝ := -p.l / (2 * p.eta) + p.f * (Real.cos p.alpha)⁻¹
  let s2 : ℝ := -p.l / (2 * p.eta) + p.f * p.v / (-p.f + p.v * Real.cos p.alpha)
  (min s1 s2, max s1 s2)

/-- cavity.s_bounds: intersection of the tangential and sagittal
stability intervals. -/
def s_bounds (p : CavityParameters) : ℝ × ℝ :=
  let t := s_bounds_tangential p
  let g := s_bounds_sagittal p
  (max t.1 g.1, min t.2 g.2)

/-- numpy float64 division as it occurs in the second stability-root
formula of s_bounds_tangential and s_bounds_sagittal: an exactly zero
denominator (produced as +0.0 by the cancellation) yields the signed
infinity matching the numerator's sign.  The indeterminate 0/0 case,
NaN in numpy, is modelled as 0; it cannot arise from the root formulas
when f is nonzero, since a zero denominator forces v*w = f and hence a
nonzero numerator f*v. -/
def np_div (x y : ℝ) : EReal :=
  if y = 0 then (if 0 < x then (⊤ : EReal) else if x < 0 then (⊥ : EReal) else 0)
  else (((x / y : ℝ)) : EReal)

/-- cavity.s_bounds_tangential valued in the extended reals, modelling
the numpy division-by-zero behavior of the second root formula: at a
zero root denominator the source returns a half-infinite interval.
Away from a zero denominator it agrees with s_bounds_tangential (see
s_bounds_tangential_np_eq); the totalized real-valued version diverges
from the source exactly at a zero denominator. -/
def s_bounds_tangential_np (p : CavityParameters) : EReal × EReal :=
  let s1 : EReal :=
    if p.Brewster then (((-(p.l / (2 * p.eta ^ 3)) + p.f * Real.cos p.alpha : ℝ)) : EReal)
    else (((-p.l / (2 * p.eta) + p.f * Real.cos p.alpha : ℝ)) : EReal)
  let s2 : EReal :=
    (if p.Brewster then (((-(p.l / (2 * p.eta ^ 3)) : ℝ)) : EReal)
     else (((-p.l / (2 * p.eta) : ℝ)) : EReal))
    + np_div (p.f * p.v) (-p.f + p.v * (Real.cos p.alpha)⁻¹)
  (min s1 s2, max s1 s2)

/-- cavity.s_bounds_sagittal valued in the extended reals, modelling the
numpy division-by-zero behavior of the second root formula; away from a
zero denominator it agrees with s_bounds_sagittal (see
s_bounds_sagittal_np_eq). -/
def s_bounds_sagittal_np (p : CavityParameters) : EReal × EReal :=
  let s1 : EReal := ((-p.l / (2 * p.eta) + p.f * (Real.cos p.alpha)⁻¹ : ℝ) : EReal)
  let s2 : EReal := ((-p.l / (2 * p.eta) : ℝ) : EReal)
    + np_div (p.f * p.v) (-p.f + p.v * Real.cos p.alpha)
  (min s1 s2, max s1 s2)

/-- cavity.construct_tangential_matrix: the tangential-plane round-trip
ABCD matrix, with a Brewster and a plane variant. -/
def construct_tangential_matrix (p : CavityParameters) : TransferMatrix :=
  let f := p.f
  let l := p.l
  let v := p.v
  let s := p.s
  let eta := p.eta
  let sec := (Real.cos p.alpha)⁻¹
  if p.Brewster then
    { A := (f ^ 2 * eta ^ 3 - f * (l + 2 * (s + v) * eta ^ 3) * sec
            + v * (l + 2 * s * eta ^ 3) * sec ^ 2) / (f ^ 2 * eta ^ 3)
      B := ((2 * f * eta ^ 3 - (l + 2 * s * eta ^ 3) * sec) * (f * (l + 2 * (s + v) * eta ^ 3)
            - v * (l + 2 * s * eta ^ 3) * sec)) / (2 * f ^ 2 * eta ^ 4)
      C := -(2 * sec * (f - v * sec)) / (f ^ 2 * eta ^ 2)
      D := (f ^ 2 * eta ^ 3 - f * (l + 2 * (s + v) * eta ^ 3) * sec
            + v * (l + 2 * s * eta ^ 3) * sec ^ 2) / (f ^ 2 * eta ^ 3) }
  else
    { A := (f ^ 2 * eta - f * (l + 2 * (s + v) * eta) * sec
            + v * (l + 2 * s * eta) * sec ^ 2) / (f ^ 2 * eta)
      B := ((2 * f * eta - (l + 2 * s * eta) * sec) * (f * (l + 2 * (s + v) * eta)
            - v * (l + 2 * s * eta) * sec)) / (2 * f ^ 2 * eta ^ 2)
      C := (-2 * sec * (f - v * sec)) / f ^ 2
      D := (f ^ 2 * eta - f * (l + 2 * (s + v) * eta) * sec
            + v * (l + 2 * s * eta) * sec ^ 2) / (f ^ 2 * eta) }

/-- cavity.construct_sagittal_matrix: the sagittal-plane round-trip ABCD
matrix (no Brewster branch). -/
def construct_sagittal_matrix (p : CavityParameters) : TransferMatrix :=
  let f := p.f
  let l := p.l
  let v := p.v
  let s := p.s
  let eta := p.eta
  let c := Real.cos p.alpha
  { A := (f ^ 2 * eta - f * (l + 2 * (s + v) * eta) * c
          + v * (l + 2 * s * eta) * c ^ 2) / (f ^ 2 * eta)
    B := ((2 * f * eta - (l + 2 * s * eta) * c) * (f * (l + 2 * (s + v) * eta)
          - v * (l + 2 * s * eta) * c)) / (2 * f ^ 2 * eta ^ 2)
    C := (2 * c * (-f + v * c)) / f ^ 2
    D := (f ^ 2 * eta - f * (l + 2 * (s + v) * eta) * c
          + v * (l + 2 * s * eta) * c ^ 2) / (f ^ 2 * eta) }

/-- cavity.construct_secondary_focus_matrix_tangential: crystal center →
secondary focus transfer matrix, tangential plane. -/
def construct_secondary_focus_matrix_tangential (p : CavityParameters) : TransferMatrix :=
  let f := p.f
  let l := p.l
  let v := p.v
  let s := p.s
  let eta := p.eta
  let sec := (Real.cos p.alpha)⁻¹
  if p.Brewster then
    { A := (f - v * sec) / (f * eta)
      B := (f * (l + 2 * (s + v) * eta ^ 3) - v * (l + 2 * s * eta ^ 3) * sec) / (2 * f * eta ^ 2)
      C := -(sec / (f * eta))
      D := eta - ((l + 2 * s * eta ^ 3) * sec) / (2 * f * eta ^ 2) }
  else
    { A := 1 - (v * sec) / f
      B := (f * (l + 2 * (s + v) * eta) - v * (l + 2 * s * eta) * sec) / (2 * f * eta)
      C := -(sec / f)
      D := 1 - ((l + 2 * s * eta) * sec) / (2 * f * eta) }

/-- cavity.construct_secondary_focus_matrix_sagittal: crystal center →
secondary focus transfer matrix, sagittal plane. -/
def construct_secondary_focus_matrix_sagittal (p : CavityParameters) : TransferMatrix :=
  let f := p.f
  let l := p.l
  let v := p.v
  let s := p.s
  let eta := p.eta
  let c := Real.cos p.alpha
  { A := 1 - (v * c) / f
    B := (f * (l + 2 * (s + v) * eta) - v * (l + 2 * s * eta) * c) / (2 * f * eta)
    C := -(c / f)
    D := 1 - ((l + 2 * s * eta) * c) / (2 * f * eta) }

/-- The two distinct ValueError conditions raised by the cavity module:
one for a single s outside the stability bounds (solve_cavity), one for a
globally unstable configuration (solve_cavity_s_range). -/
inductive CavityError where
  | unstableS : CavityError
  | unstableAll : CavityError
deriving DecidableEq

/-- The twelve-field result record returned by cavity.solve_cavity. -/
structure CavityResult where
  w_t_crystal : ℝ
  b_t_crystal : ℝ
  xi_t_crystal : ℝ
  w_s_crystal : ℝ
  b_s_crystal : ℝ
  xi_s_crystal : ℝ
  e_crystal : ℝ
  w_t_collimated : ℝ
  b_t_collimated : ℝ
  w_s_collimated : ℝ
  b_s_collimated : ℝ
  e_collimated : ℝ

/-- The twelve derived quantities assembled by cavity.solve_cavity once
the stability check has passed: waists, confocal parameters and focusing
parameters at the crystal, the same at the secondary (collimated) focus,
and the two ellipticities. -/
def cavityRecord (p : CavityParameters) : CavityResult :=
  let q_t := calculate_eigenmode (construct_tangential_matrix p) p.eta
  let q_s := calculate_eigenmode (construct_sagittal_matrix p) p.eta
  let w_t_crystal := get_w q_t p.eta p.wavelength
  let b_t_crystal := get_b q_t
  let w_s_crystal := get_w q_s p.eta p.wavelength
  let b_s_crystal := get_b q_s
  let q_t_collimated := propagate q_t (construct_secondary_focus_matrix_tangential p) 1 p.eta
  let q_s_collimated := propagate q_s (construct_secondary_focus_matrix_sagittal p) 1 p.eta
  let w_t_collimated := get_w q_t_collimated 1 p.wavelength
  let b_t_collimated := get_b q_t_collimated
  let w_s_collimated := get_w q_s_collimated 1 p.wavelength
  let b_s_collimated := get_b q_s_collimated
  { w_t_crystal := w_t_crystal
    b_t_crystal := b_t_crystal
    xi_t_crystal := p.l / b_t_crystal
    w_s_crystal := w_s_crystal
    b_s_crystal := b_s_crystal
    xi_s_crystal := p.l / b_s_crystal
    e_crystal := w_s_crystal / w_t_crystal
    w_t_collimated := w_t_collimated
    b_t_collimated := b_t_collimated
    w_s_collimated := w_s_collimated
    b_s_collimated := b_s_collimated
    e_collimated := w_s_collimated / w_t_collimated }

/-- cavity.solve_cavity: builds both round-trip matrices, solves both
eigenmodes, raises the unstable-configuration error when s is outside
s_bounds, and otherwise assembles the twelve derived quantities. -/
def solve_cavity (p : CavityParameters) : Except CavityError CavityResult :=
  let b := s_bounds p
  if p.s < b.1 ∨ p.s > b.2 then Except.error CavityError.unstableS
  else Except.ok (cavityRecord p)

/-- The swept result record returned by cavity.solve_cavity_s_range:
twelve parallel sequences plus the retained s values. -/
structure SweptCavityResult where
  w_t_crystal_values : List ℝ
  b_t_crystal_values : List ℝ
  xi_t_crystal_values : List ℝ
  w_s_crystal_values : List ℝ
  b_s_crystal_values : List ℝ
  xi_s_crystal_values : List ℝ
  e_crystal_values : List ℝ
  w_t_collimated_values : List ℝ
  b_t_collimated_values : List ℝ
  w_s_collimated_values : List ℝ
  b_s_collimated_values : List ℝ
  e_collimated_values : List ℝ
  s_values_valid : List ℝ

/-- Default sample grid of cavity.solve_cavity_s_range: numpy
linspace(s_min+100E-6, s_max-100E-6) with the default 50 points, i.e.
start + i*(stop-start)/49 for i = 0..49. -/
def defaultSamples (p : CavityParameters) : List ℝ :=
  let b := s_bounds p
  let start := b.1 + 100e-6
  let stop := b.2 - 100e-6
  (List.range 50).map fun i : ℕ => start + (i : ℝ) * (stop - start) / 49

/-- One iteration of the sweep loop of cavity.solve_cavity_s_range: the
sample s is retained together with its solve_cavity record when
solve_cavity succeeds on the parameters with s substituted, and dropped
(the logged unstable-configuration case) when it raises. -/
def sweepSample (p : CavityParameters) (s : ℝ) : Option (ℝ × CavityResult) :=
  match solve_cavity { p with s := s } with
  | Except.ok r => some (s, r)
  | Except.error _ => none

/-- The sweep loop body of cavity.solve_cavity_s_range: iterate over the
sample list, drop the samples on which solve_cavity raises, and append
each retained sample's twelve quantities and its s to the parallel
accumulator lists. -/
def sweptRecord (p : CavityParameters) (svals : List ℝ) : SweptCavityResult :=
  let results := svals.filterMap (sweepSample p)
  { w_t_crystal_values := results.map fun r => r.2.w_t_crystal
    b_t_crystal_values := results.map fun r => r.2.b_t_crystal
    xi_t_crystal_values := results.map fun r => r.2.xi_t_crystal
    w_s_crystal_values := results.map fun r => r.2.w_s_crystal
    b_s_crystal_values := results.map fun r => r.2.b_s_crystal
    xi_s_crystal_values := results.map fun r => r.2.xi_s_crystal
    e_crystal_values := results.map fun r => r.2.e_crystal
    w_t_collimated_values := results.map fun r => r.2.w_t_collimated
    b_t_collimated_values := results.map fun r => r.2.b_t_collimated
    w_s_collimated_values := results.map fun r => r.2.w_s_collimated
    b_s_collimated_values := results.map fun r => r.2.b_s_collimated
    e_collimated_values := results.map fun r => r.2.e_collimated
    s_values_valid := results.map Prod.fst }

/-- cavity.solve_cavity_s_range: raises the globally-unstable error when
the intersected stability interval is narrower than 1mm or has a negative
bound; otherwise sweeps the supplied (or default) s values, dropping every
sample on which solve_cavity raises, and collects the twelve parallel
sequences plus the retained s values. -/
def solve_cavity_s_range (p : CavityParameters) (s_values : Option (List ℝ)) :
    Except CavityError SweptCavityResult :=
  let b := s_bounds p
  if b.2 - b.1 < 1e-3 ∨ b.1 < 0 ∨ b.2 < 0 then Except.error CavityError.unstableAll
  else Except.ok (sweptRecord p (s_values.getD (defaultSamples p)))

/-! Helper lemmas about the principal complex square root and the
eigenmode of a stable unimodular matrix. -/

/-- On a negative real argument the principal complex square root is
purely imaginary with positive imaginary part: sqrt(-c) = i*sqrt(c). -/
lemma np_sqrt_neg (c : ℝ) (hc : 0 < c) :
    np_sqrt ((-c : ℝ) : ℂ) = Complex.I * (Real.sqrt c : ℝ) := by
  have h12 : ((1 : ℂ) / 2) = (((1 : ℝ) / 2 : ℝ) : ℂ) := by norm_num
  rw [np_sqrt, h12, Complex.cpow_ofReal, Complex.abs_ofReal,
    Complex.arg_ofReal_of_neg (by linarith), abs_of_neg (by linarith), neg_neg]
  have hcos : Real.cos (Real.pi * (1 / 2)) = 0 := by
    rw [mul_one_div, Real.cos_pi_div_two]
  have hsin : Real.sin (Real.pi * (1 / 2)) = 1 := by
    rw [mul_one_div, Real.sin_pi_div_two]
  rw [hcos, hsin, ← Real.sqrt_eq_rpow]
  push_cast
  ring

/-- For a matrix with half-trace stability factor strictly below 1 in
magnitude, the square of the trace is below 4. -/
lemma trace_sq_lt_four (M : TransferMatrix) (hm : |get_m M| < 1) :
    (M.A + M.D) ^ 2 < 4 := by
  rw [get_m] at hm
  obtain ⟨h1, h2⟩ := abs_lt.mp hm
  nlinarith

/-- A stable unimodular matrix has a nonzero B entry. -/
lemma stable_B_ne_zero (M : TransferMatrix) (hdet : M.det = 1) (hm : |get_m M| < 1) :
    M.B ≠ 0 := by
  intro hB
  rw [TransferMatrix.det, hB] at hdet
  have h4 := trace_sq_lt_four M hm
  nlinarith [sq_nonneg (M.A - M.D)]

/-- Closed form of calculate_eigenmode for a stable matrix: the square
root argument is the negative real (A+D)^2 - 4, so the square root is
i*sqrt(4-(A+D)^2) and q = 2*B*eta/((D-A) + i*sqrt(4-(A+D)^2)). -/
lemma calculate_eigenmode_stable (M : TransferMatrix) (eta : ℝ) (hm : |get_m M| < 1) :
    calculate_eigenmode M eta =
      ((2 * M.B * eta : ℝ) : ℂ) /
        (((M.D - M.A : ℝ) : ℂ) + Complex.I * (Real.sqrt (4 - (M.A + M.D) ^ 2) : ℝ)) := by
  have h4 := trace_sq_lt_four M hm
  have harg : (((-2 + M.A + M.D : ℝ) : ℂ) * ((2 + M.A + M.D : ℝ) : ℂ))
      = ((-(4 - (M.A + M.D) ^ 2) : ℝ) : ℂ) := by
    push_cast
    ring
  rw [calculate_eigenmode, harg, np_sqrt_neg _ (by linarith)]
  push_cast
  ring_nf

/-- The denominator (x : ℂ) + i*t is nonzero whenever t is nonzero. -/
lemma eigen_denom_ne_zero (x t : ℝ) (ht : t ≠ 0) :
    ((x : ℝ) : ℂ) + Complex.I * ((t : ℝ) : ℂ) ≠ 0 := by
  intro h
  have him := congrArg Complex.im h
  simp at him
  exact ht him

/-- Imaginary part of the reciprocal of the stable eigenmode:
Im(1/q) = sqrt(4-(A+D)^2) / (2*B*eta). -/
lemma calculate_eigenmode_inv_im (M : TransferMatrix) (eta : ℝ) (hm : |get_m M| < 1) :
    ((calculate_eigenmode M eta)⁻¹).im =
      Real.sqrt (4 - (M.A + M.D) ^ 2) / (2 * M.B * eta) := by
  rw [calculate_eigenmode_stable M eta hm, inv_div, Complex.div_ofReal_im]
  simp

/-- Imaginary part of the stable eigenmode itself:
Im(q) = -(2*B*eta*sqrt(4-(A+D)^2)) / normSq(denominator). -/
lemma calculate_eigenmode_im_eq (M : TransferMatrix) (eta : ℝ) (hm : |get_m M| < 1) :
    (calculate_eigenmode M eta).im =
      -(2 * M.B * eta * Real.sqrt (4 - (M.A + M.D) ^ 2)) /
        Complex.normSq (((M.D - M.A : ℝ) : ℂ) +
          Complex.I * ((Real.sqrt (4 - (M.A + M.D) ^ 2) : ℝ) : ℂ)) := by
  rw [calculate_eigenmode_stable M eta hm, Complex.div_im]
  simp
  ring

/-! Claim C3 -/

/-- C3 (amended): for every unimodular M with |get_m M| < 1, eta > 0 and
additionally B > 0, the square-root argument (-2+A+D)*(2+A+D) is
negative, the eigenmode q is genuinely complex, and Im(1/q) is positive.
The extra hypothesis 0 < B is forced: for B < 0 the code produces
Im(1/q) < 0 (see the counterexample), and in general Im(1/q) has the
sign of B. -/
theorem c3_eigenmode_complex_sign (M : TransferMatrix) (eta : ℝ) (hdet : M.det = 1)
    (hm : |get_m M| < 1) (heta : 0 < eta) (hB : 0 < M.B) :
    (-2 + M.A + M.D) * (2 + M.A + M.D) < 0 ∧
    (calculate_eigenmode M eta).im ≠ 0 ∧
    0 < ((calculate_eigenmode M eta)⁻¹).im := by
  have h4 := trace_sq_lt_four M hm
  have ht : 0 < Real.sqrt (4 - (M.A + M.D) ^ 2) := Real.sqrt_pos.mpr (by linarith)
  refine ⟨by nlinarith, ?_, ?_⟩
  · rw [calculate_eigenmode_im_eq M eta hm]
    have hns : 0 < Complex.normSq (((M.D - M.A : ℝ) : ℂ) +
        Complex.I * ((Real.sqrt (4 - (M.A + M.D) ^ 2) : ℝ) : ℂ)) :=
      Complex.normSq_pos.mpr (eigen_denom_ne_zero _ _ ht.ne')
    have hnum : 0 < 2 * M.B * eta * Real.sqrt (4 - (M.A + M.D) ^ 2) :=
      mul_pos (mul_pos (mul_pos (by norm_num) hB) heta) ht
    exact ne_of_lt (div_neg_of_neg_of_pos (neg_neg_of_pos hnum) hns)
  · rw [calculate_eigenmode_inv_im M eta hm]
    exact div_pos ht (mul_pos (mul_pos (by norm_num) hB) heta)

/-- Unimodular stable matrix with negative B used to refute C3 as
stated: one quarter turn, [[0,-1],[1,0]]. -/
def c3CounterM : TransferMatrix := ⟨0, -1, 1, 0⟩

/-- C3 counterexample: the matrix [[0,-1],[1,0]] is unimodular with
|get_m| = 0 < 1 and eta = 1 > 0, yet the code produces Im(1/q) < 0,
refuting the claim that Im(1/q) < 0 is never produced for a stable
system. -/
theorem c3_counterexample :
    c3CounterM.det = 1 ∧ |get_m c3CounterM| < 1 ∧ (0 : ℝ) < 1 ∧
      ((calculate_eigenmode c3CounterM 1)⁻¹).im < 0 := by
  have hm : |get_m c3CounterM| < 1 := by norm_num [get_m, c3CounterM]
  refine ⟨by norm_num [TransferMatrix.det, c3CounterM], hm, by norm_num, ?_⟩
  rw [calculate_eigenmode_inv_im c3CounterM 1 hm]
  have h1 : 0 < Real.sqrt (4 - (c3CounterM.A + c3CounterM.D) ^ 2) := by
    rw [Real.sqrt_pos]
    norm_num [c3CounterM]
  have h2 : 2 * c3CounterM.B * (1 : ℝ) < 0 := by norm_num [c3CounterM]
  exact div_neg_of_pos_of_neg h1 h2

/-- Unimodular stable matrix with positive B used as the witness input
for C3. -/
def c3WitnessM : TransferMatrix := ⟨0, 1, -1, 0⟩

/-- Witness for C3 at [[0,1],[-1,0]] with eta = 1: every hypothesis of
the amended theorem holds there and the amended conclusion follows. -/
theorem c3_eigenmode_complex_sign_witness :
    (c3WitnessM.det = 1 ∧ |get_m c3WitnessM| < 1 ∧ (0 : ℝ) < 1 ∧ 0 < c3WitnessM.B) ∧
      ((-2 + c3WitnessM.A + c3WitnessM.D) * (2 + c3WitnessM.A + c3WitnessM.D) < 0 ∧
        (calculate_eigenmode c3WitnessM 1).im ≠ 0 ∧
        0 < ((calculate_eigenmode c3WitnessM 1)⁻¹).im) :=
  ⟨⟨by norm_num [TransferMatrix.det, c3WitnessM], by norm_num [get_m, c3WitnessM],
      by norm_num, by norm_num [c3WitnessM]⟩,
    c3_eigenmode_complex_sign c3WitnessM 1 (by norm_num [TransferMatrix.det, c3WitnessM])
      (by norm_num [get_m, c3WitnessM]) (by norm_num) (by norm_num [c3WitnessM])⟩

/-! Claim C4 -/

/-- C4: for every unimodular M with |get_m M| < 1 and eta > 0, the
eigenmode is a fixed point of one round-trip propagation. -/
theorem c4_eigenmode_fixed_point (M : TransferMatrix) (eta : ℝ) (hdet : M.det = 1)
    (hm : |get_m M| < 1) (heta : 0 < eta) :
    propagate (calculate_eigenmode M eta) M eta eta = calculate_eigenmode M eta := by
  have h4 := trace_sq_lt_four M hm
  have hB := stable_B_ne_zero M hdet hm
  rw [calculate_eigenmode_stable M eta hm]
  simp only [propagate]
  set t : ℝ := Real.sqrt (4 - (M.A + M.D) ^ 2) with htdef
  have ht : 0 < t := Real.sqrt_pos.mpr (by linarith)
  have htsq : t ^ 2 = 4 - (M.A + M.D) ^ 2 := Real.sq_sqrt (by linarith)
  set u : ℂ := ((M.D - M.A : ℝ) : ℂ) + Complex.I * ((t : ℝ) : ℂ) with hudef
  have huim : u.im = t := by simp [hudef]
  have hu : u ≠ 0 := by
    intro h
    rw [h] at huim
    simp at huim
    exact ht.ne huim
  have hetaC : (eta : ℂ) ≠ 0 := by exact_mod_cast heta.ne'
  have hdetC : (M.A : ℂ) * M.D - M.B * M.C = 1 := by
    rw [TransferMatrix.det] at hdet
    exact_mod_cast hdet
  have htC : ((t : ℝ) : ℂ) ^ 2 = 4 - ((M.A : ℂ) + M.D) ^ 2 := by exact_mod_cast htsq
  have hkey : (((M.D - M.A : ℝ) : ℂ) + Complex.I * ((t : ℝ) : ℂ)) ^ 2
      + 2 * ((M.A : ℂ) - M.D) * (((M.D - M.A : ℝ) : ℂ) + Complex.I * ((t : ℝ) : ℂ))
      - 4 * (M.B : ℂ) * (M.C : ℂ) = 0 := by
    push_cast
    linear_combination ((t : ℝ) : ℂ) ^ 2 * Complex.I_sq - htC + 4 * hdetC
  have hDn : (M.C : ℂ) * (((2 * M.B * eta : ℝ) : ℂ) / u) / (eta : ℂ) + (M.D : ℂ) ≠ 0 := by
    intro h
    have h2 : (M.C : ℂ) * (2 * M.B * eta) + (M.D : ℂ) * u * (eta : ℂ) = 0 := by
      have hmul := congrArg (fun z => z * (u * (eta : ℂ))) h
      simp only [zero_mul] at hmul
      field_simp at hmul
      linear_combination hmul
    by_cases hD : M.D = 0
    · rw [hD] at hdetC h2
      push_cast at h2
      have h3 : (2 : ℝ) * eta * (M.B * M.C) = 0 := by
        have h4c : ((2 : ℝ) * eta * (M.B * M.C) : ℂ) = 0 := by
          push_cast
          linear_combination h2
        exact_mod_cast h4c
      have hBC2 : M.B * M.C = -1 := by
        have h5 : (M.A : ℂ) * 0 - M.B * M.C = 1 := hdetC
        have h6 : ((M.B * M.C : ℝ) : ℂ) = -1 := by
          push_cast
          linear_combination -h5
        exact_mod_cast h6
      rw [hBC2] at h3
      have : eta = 0 := by linarith
      exact heta.ne' this
    · have him := congrArg Complex.im h2
      simp only [Complex.add_im, Complex.mul_im, Complex.mul_re, Complex.ofReal_im,
        Complex.ofReal_re, Complex.zero_im, Complex.re_ofNat, Complex.im_ofNat, huim] at him
      ring_nf at him
      have hz : M.D * t * eta = 0 := by linarith
      rcases mul_eq_zero.mp hz with h7 | h7
      · rcases mul_eq_zero.mp h7 with h8 | h8
        · exact hD h8
        · exact ht.ne' h8
      · exact heta.ne' h7
  rw [div_eq_div_iff hDn hu]
  field_simp
  linear_combination ((eta : ℂ) ^ 2 * (M.B : ℂ)) * hkey

/-- Unimodular stable matrix used as the witness input for C4. -/
def c4WitnessM : TransferMatrix := ⟨0, 1, -1, 0⟩

/-- Witness for C4 at [[0,1],[-1,0]] with eta = 1. -/
theorem c4_eigenmode_fixed_point_witness :
    (c4WitnessM.det = 1 ∧ |get_m c4WitnessM| < 1 ∧ (0 : ℝ) < 1) ∧
      propagate (calculate_eigenmode c4WitnessM 1) c4WitnessM 1 1 =
        calculate_eigenmode c4WitnessM 1 :=
  ⟨⟨by norm_num [TransferMatrix.det, c4WitnessM], by norm_num [get_m, c4WitnessM],
      by norm_num⟩,
    c4_eigenmode_fixed_point c4WitnessM 1 (by norm_num [TransferMatrix.det, c4WitnessM])
      (by norm_num [get_m, c4WitnessM]) (by norm_num)⟩

/-- An if-guarded Except returns some ok value when the guard is false. -/
lemma except_ite_ok {a b : Type} {c : Prop} [Decidable c] {e : b} {x : a}
    (h : ¬c) : ∃ r, (if c then Except.error e else Except.ok x) = Except.ok r :=
  ⟨x, by rw [if_neg h]⟩

/-! Claim C1 -/

/-- C1: solve_cavity returns the twelve-field record for s strictly
inside the s_bounds interval and signals the distinct
unstable-configuration error for s strictly outside it. -/
theorem c1_solve_cavity_stability_gate (p : CavityParameters) :
    ((s_bounds p).1 < p.s → p.s < (s_bounds p).2 → ∃ r, solve_cavity p = Except.ok r) ∧
    (p.s < (s_bounds p).1 ∨ (s_bounds p).2 < p.s →
      solve_cavity p = Except.error CavityError.unstableS) := by
  constructor
  · intro h1 h2
    have hcond : ¬(p.s < (s_bounds p).1 ∨ p.s > (s_bounds p).2) := by
      push_neg
      exact ⟨le_of_lt h1, le_of_lt h2⟩
    simp only [solve_cavity]
    exact except_ite_ok hcond
  · intro h
    simp only [solve_cavity]
    rw [if_pos]
    rcases h with h | h
    · exact Or.inl h
    · exact Or.inr h

/-- Parameter record with stability interval (1, 2) and s = 3/2 strictly
inside it. -/
def c1StableP : CavityParameters := ⟨1, 0, 2, 3/2, 1, 0, 1, false⟩

/-- Parameter record with stability interval (1, 2) and s = 3 strictly
outside it. -/
def c1UnstableP : CavityParameters := ⟨1, 0, 2, 3, 1, 0, 1, false⟩

/-- Stability interval of the C1 witness records. -/
lemma c1_bounds : s_bounds c1StableP = (1, 2) ∧ s_bounds c1UnstableP = (1, 2) := by
  constructor <;>
  · simp only [s_bounds, s_bounds_tangential, s_bounds_sagittal, c1StableP, c1UnstableP,
      Real.cos_zero, Bool.false_eq_true, if_false]
    norm_num [min_def, max_def]

/-- Witness for C1: at one concrete record with s strictly inside the
bounds a result is returned, and at another with s strictly outside the
distinct instability error is signalled. -/
theorem c1_solve_cavity_stability_gate_witness :
    ((s_bounds c1StableP).1 < c1StableP.s ∧ c1StableP.s < (s_bounds c1StableP).2 ∧
      ∃ r, solve_cavity c1StableP = Except.ok r) ∧
    ((s_bounds c1UnstableP).2 < c1UnstableP.s ∧
      solve_cavity c1UnstableP = Except.error CavityError.unstableS) := by
  obtain ⟨hb1, hb2⟩ := c1_bounds
  have h1 : (s_bounds c1StableP).1 < c1StableP.s := by rw [hb1]; norm_num [c1StableP]
  have h2 : c1StableP.s < (s_bounds c1StableP).2 := by rw [hb1]; norm_num [c1StableP]
  have h3 : (s_bounds c1UnstableP).2 < c1UnstableP.s := by rw [hb2]; norm_num [c1UnstableP]
  exact ⟨⟨h1, h2, (c1_solve_cavity_stability_gate c1StableP).1 h1 h2⟩,
    ⟨h3, (c1_solve_cavity_stability_gate c1UnstableP).2 (Or.inr h3)⟩⟩

/-! Claim C5 -/

/-- C5: solve_cavity_s_range signals the distinct globally-unstable
error exactly when the intersected stability interval is narrower than
the 1mm floor or has a negative bound, and otherwise proceeds to the
sweep and returns a swept record. -/
theorem c5_s_range_global_gate (p : CavityParameters) (s_values : Option (List ℝ)) :
    (solve_cavity_s_range p s_values = Except.error CavityError.unstableAll ↔
      ((s_bounds p).2 - (s_bounds p).1 < 1e-3 ∨ (s_bounds p).1 < 0 ∨ (s_bounds p).2 < 0)) ∧
    (¬((s_bounds p).2 - (s_bounds p).1 < 1e-3 ∨ (s_bounds p).1 < 0 ∨ (s_bounds p).2 < 0) →
      ∃ r, solve_cavity_s_range p s_values = Except.ok r) := by
  constructor
  · constructor
    · intro h
      by_contra hc
      simp only [solve_cavity_s_range] at h
      rw [if_neg hc] at h
      exact Except.noConfusion h
    · intro h
      simp only [solve_cavity_s_range]
      rw [if_pos h]
  · intro h
    simp only [solve_cavity_s_range]
    exact except_ite_ok h

/-- Parameter record whose intersected stability interval (-1, 1) has a
negative lower bound, hence is globally unstable. -/
def c5UnstableP : CavityParameters := ⟨1, 0, 1/2, 0, 1, 0, 1, false⟩

/-- Parameter record whose intersected stability interval (1, 2) passes
the global-stability gate. -/
def c5StableP : CavityParameters := ⟨1, 0, 2, 0, 1, 0, 1, false⟩

/-- Witness for C5: one concrete globally unstable record yields the
distinct error via the iff, and one stable record yields a swept
result. -/
theorem c5_s_range_global_gate_witness :
    solve_cavity_s_range c5UnstableP (some [0]) = Except.error CavityError.unstableAll ∧
      ∃ r, solve_cavity_s_range c5StableP (some []) = Except.ok r := by
  have hbu : s_bounds c5UnstableP = (-1, 1) := by
    simp only [s_bounds, s_bounds_tangential, s_bounds_sagittal, c5UnstableP,
      Real.cos_zero, Bool.false_eq_true, if_false]
    norm_num [min_def, max_def]
  have hbs : s_bounds c5StableP = (1, 2) := by
    simp only [s_bounds, s_bounds_tangential, s_bounds_sagittal, c5StableP,
      Real.cos_zero, Bool.false_eq_true, if_false]
    norm_num [min_def, max_def]
  constructor
  · exact (c5_s_range_global_gate c5UnstableP (some [0])).1.mpr
      (by rw [hbu]; norm_num)
  · exact (c5_s_range_global_gate c5StableP (some [])).2
      (by rw [hbs]; norm_num)

/-! Claim C9 -/

/-- C9 (amended): when the intersected stability interval is not
inverted, a parameter record whose s equals either endpoint of s_bounds
is not rejected: the bounds check uses strict inequalities, so the
interval behaves as closed. The non-inversion hypothesis is forced: for
disjoint per-plane intervals s_bounds is inverted and s equal to the
lower bound then exceeds the upper bound and is rejected (see the
counterexample). -/
theorem c9_endpoints_not_rejected (p : CavityParameters)
    (hle : (s_bounds p).1 ≤ (s_bounds p).2)
    (h : p.s = (s_bounds p).1 ∨ p.s = (s_bounds p).2) :
    ∃ r, solve_cavity p = Except.ok r := by
  have hcond : ¬(p.s < (s_bounds p).1 ∨ p.s > (s_bounds p).2) := by
    push_neg
    rcases h with h | h
    · rw [h]
      exact ⟨le_refl _, hle⟩
    · rw [h]
      exact ⟨hle, le_refl _⟩
  simp only [solve_cavity]
  exact except_ite_ok hcond

/-- Parameter record (alpha = pi/3) with disjoint per-plane stability
intervals: tangential (1/2, 10/19), sagittal (2, 5/2), so s_bounds is
the inverted pair (2, 10/19); its s sits exactly at the first endpoint. -/
def c9CounterP : CavityParameters := ⟨1, 0, 10, 2, 1, Real.pi / 3, 1, false⟩

/-- C9 counterexample: a record whose s equals exactly the first
endpoint of s_bounds on which solve_cavity nevertheless signals the
unstable-configuration error, because the intersected interval is
inverted. -/
theorem c9_counterexample :
    c9CounterP.s = (s_bounds c9CounterP).1 ∧
      solve_cavity c9CounterP = Except.error CavityError.unstableS := by
  have hb : s_bounds c9CounterP = (2, 10/19) := by
    simp only [s_bounds, s_bounds_tangential, s_bounds_sagittal, c9CounterP,
      Real.cos_pi_div_three, Bool.false_eq_true, if_false]
    norm_num [min_def, max_def]
  constructor
  · rw [hb]
    norm_num [c9CounterP]
  · simp only [solve_cavity]
    rw [if_pos]
    rw [hb]
    right
    norm_num [c9CounterP]

/-- Parameter record with stability interval (1, 2) and s = 1 exactly at
the lower endpoint. -/
def c9WitnessP : CavityParameters := ⟨1, 0, 2, 1, 1, 0, 1, false⟩

/-- Witness for C9 at a record whose s equals the lower endpoint of a
non-inverted stability interval: solve_cavity succeeds there. -/
theorem c9_endpoints_not_rejected_witness :
    ((s_bounds c9WitnessP).1 ≤ (s_bounds c9WitnessP).2 ∧
      c9WitnessP.s = (s_bounds c9WitnessP).1) ∧
    ∃ r, solve_cavity c9WitnessP = Except.ok r := by
  have hb : s_bounds c9WitnessP = (1, 2) := by
    simp only [s_bounds, s_bounds_tangential, s_bounds_sagittal, c9WitnessP,
      Real.cos_zero, Bool.false_eq_true, if_false]
    norm_num [min_def, max_def]
  have h1 : (s_bounds c9WitnessP).1 ≤ (s_bounds c9WitnessP).2 := by rw [hb]; norm_num
  have h2 : c9WitnessP.s = (s_bounds c9WitnessP).1 := by
    rw [hb]
    norm_num [c9WitnessP]
  exact ⟨⟨h1, h2⟩, c9_endpoints_not_rejected c9WitnessP h1 (Or.inl h2)⟩

/-! Claim C7 -/

/-- Substituting a new s leaves s_bounds unchanged: the bounds read only
f, l, v, eta and alpha. -/
lemma s_bounds_update_s (p : CavityParameters) (x : ℝ) :
    s_bounds { p with s := x } = s_bounds p := rfl

/-- A successful solve_cavity call implies its s lies within the
stability bounds. -/
lemma solve_cavity_ok_bounds {p : CavityParameters} {r : CavityResult}
    (h : solve_cavity p = Except.ok r) :
    (s_bounds p).1 ≤ p.s ∧ p.s ≤ (s_bounds p).2 := by
  by_cases hcond : p.s < (s_bounds p).1 ∨ p.s > (s_bounds p).2
  · simp only [solve_cavity] at h
    rw [if_pos hcond] at h
    exact Except.noConfusion h
  · push_neg at hcond
    exact hcond

/-- The retained s values of the sweep are exactly the input samples on
which solve_cavity succeeds, in input order. -/
lemma sweep_fst_eq_filter (p : CavityParameters) (svals : List ℝ) :
    (svals.filterMap (sweepSample p)).map Prod.fst =
      svals.filter (fun s => (solve_cavity { p with s := s }).isOk) := by
  induction svals with
  | nil => rfl
  | cons a as ih =>
    rw [List.filterMap_cons, List.filter_cons]
    rcases hsc : solve_cavity { p with s := a } with e | r2
    · simp [sweepSample, hsc, Except.isOk, Except.toBool, ih]
    · simp [sweepSample, hsc, Except.isOk, Except.toBool, ih]

/-- C7: for a record passing the global-stability gate and any supplied
sample list, the sweep result exists, each of the twelve sequences has
the same length as the retained s values, every retained s lies within
the stability bounds, and the retained s values are exactly the
successful samples of the input in input order (in particular a sublist
of the input). -/
theorem c7_sweep_alignment (p : CavityParameters) (svals : List ℝ)
    (h : ¬((s_bounds p).2 - (s_bounds p).1 < 1e-3 ∨ (s_bounds p).1 < 0 ∨ (s_bounds p).2 < 0)) :
    ∃ r, solve_cavity_s_range p (some svals) = Except.ok r ∧
      (r.w_t_crystal_values.length = r.s_values_valid.length ∧
        r.b_t_crystal_values.length = r.s_values_valid.length ∧
        r.xi_t_crystal_values.length = r.s_values_valid.length ∧
        r.w_s_crystal_values.length = r.s_values_valid.length ∧
        r.b_s_crystal_values.length = r.s_values_valid.length ∧
        r.xi_s_crystal_values.length = r.s_values_valid.length ∧
        r.e_crystal_values.length = r.s_values_valid.length ∧
        r.w_t_collimated_values.length = r.s_values_valid.length ∧
        r.b_t_collimated_values.length = r.s_values_valid.length ∧
        r.w_s_collimated_values.length = r.s_values_valid.length ∧
        r.b_s_collimated_values.length = r.s_values_valid.length ∧
        r.e_collimated_values.length = r.s_values_valid.length) ∧
      (∀ s ∈ r.s_values_valid, (s_bounds p).1 ≤ s ∧ s ≤ (s_bounds p).2) ∧
      r.s_values_valid = svals.filter (fun s => (solve_cavity { p with s := s }).isOk) ∧
      r.s_values_valid.Sublist svals := by
  refine ⟨sweptRecord p svals, ?_, ?_, ?_, ?_, ?_⟩
  · simp only [solve_cavity_s_range]
    rw [if_neg h]
    rfl
  · simp only [sweptRecord]
    refine ⟨?_, ?_, ?_, ?_, ?_, ?_, ?_, ?_, ?_, ?_, ?_, ?_⟩ <;> simp [List.length_map]
  · intro s hs
    simp only [sweptRecord] at hs
    obtain ⟨⟨s', r2⟩, hmem, hfst⟩ := List.mem_map.mp hs
    obtain ⟨a, _, hsm⟩ := List.mem_filterMap.mp hmem
    simp only [sweepSample] at hsm
    rcases hsc : solve_cavity { p with s := a } with e | r3
    · rw [hsc] at hsm
      exact Option.noConfusion hsm
    · rw [hsc] at hsm
      obtain ⟨ha, hr⟩ := Prod.mk.injEq .. ▸ Option.some.injEq .. ▸ hsm
      have hb := solve_cavity_ok_bounds hsc
      rw [s_bounds_update_s] at hb
      subst hfst
      simp only [← ha]
      exact hb
  · simp only [sweptRecord]
    exact sweep_fst_eq_filter p svals
  · simp only [sweptRecord]
    rw [sweep_fst_eq_filter p svals]
    exact List.filter_sublist svals

/-- Parameter record for the C7 witness sweep, stability interval
(1, 2). -/
def c7P : CavityParameters := ⟨1, 0, 2, 0, 1, 0, 1, false⟩

/-- Witness for C7 at a concrete record and the sample list [3/2, 5]. -/
theorem c7_sweep_alignment_witness :
    ¬((s_bounds c7P).2 - (s_bounds c7P).1 < 1e-3 ∨ (s_bounds c7P).1 < 0 ∨
        (s_bounds c7P).2 < 0) ∧
      ∃ r, solve_cavity_s_range c7P (some [3/2, 5]) = Except.ok r ∧
        (r.w_t_crystal_values.length = r.s_values_valid.length ∧
          r.b_t_crystal_values.length = r.s_values_valid.length ∧
          r.xi_t_crystal_values.length = r.s_values_valid.length ∧
          r.w_s_crystal_values.length = r.s_values_valid.length ∧
          r.b_s_crystal_values.length = r.s_values_valid.length ∧
          r.xi_s_crystal_values.length = r.s_values_valid.length ∧
          r.e_crystal_values.length = r.s_values_valid.length ∧
          r.w_t_collimated_values.length = r.s_values_valid.length ∧
          r.b_t_collimated_values.length = r.s_values_valid.length ∧
          r.w_s_collimated_values.length = r.s_values_valid.length ∧
          r.b_s_collimated_values.length = r.s_values_valid.length ∧
          r.e_collimated_values.length = r.s_values_valid.length) ∧
        (∀ s ∈ r.s_values_valid, (s_bounds c7P).1 ≤ s ∧ s ≤ (s_bounds c7P).2) ∧
        r.s_values_valid = [3/2, 5].filter
          (fun s => (solve_cavity { c7P with s := s }).isOk) ∧
        r.s_values_valid.Sublist [3/2, 5] := by
  have hb : s_bounds c7P = (1, 2) := by
    simp only [s_bounds, s_bounds_tangential, s_bounds_sagittal, c7P,
      Real.cos_zero, Bool.false_eq_true, if_false]
    norm_num [min_def, max_def]
  have h : ¬((s_bounds c7P).2 - (s_bounds c7P).1 < 1e-3 ∨ (s_bounds c7P).1 < 0 ∨
      (s_bounds c7P).2 < 0) := by
    rw [hb]
    norm_num
  exact ⟨h, c7_sweep_alignment c7P [3/2, 5] h⟩

/-! Claim C8 -/

/-- C8: with no sample list supplied, solve_cavity_s_range sweeps the
default grid, which consists of exactly 50 points, the i-th equal to
(s_min+100E-6) + i*((s_max-100E-6)-(s_min+100E-6))/49, starting at
s_min+100µm and ending at s_max-100µm inclusive. -/
theorem c8_default_sampling (p : CavityParameters) :
    solve_cavity_s_range p none = solve_cavity_s_range p (some (defaultSamples p)) ∧
    (defaultSamples p).length = 50 ∧
    (∀ i : ℕ, i < 50 → (defaultSamples p)[i]? =
      some (((s_bounds p).1 + 100e-6) + (i : ℝ) *
        (((s_bounds p).2 - 100e-6) - ((s_bounds p).1 + 100e-6)) / 49)) ∧
    (defaultSamples p)[0]? = some ((s_bounds p).1 + 100e-6) ∧
    (defaultSamples p)[49]? = some ((s_bounds p).2 - 100e-6) := by
  have hlen : (defaultSamples p).length = 50 := by
    simp only [defaultSamples, List.length_map, List.length_range]
  have hget : ∀ i : ℕ, i < 50 → (defaultSamples p)[i]? =
      some (((s_bounds p).1 + 100e-6) + (i : ℝ) *
        (((s_bounds p).2 - 100e-6) - ((s_bounds p).1 + 100e-6)) / 49) := by
    intro i hi
    simp only [defaultSamples]
    rw [List.getElem?_map, List.getElem?_range hi]
    rfl
  refine ⟨rfl, hlen, hget, ?_, ?_⟩
  · rw [hget 0 (by norm_num)]
    norm_num
  · rw [hget 49 (by norm_num)]
    congr 1
    push_cast
    ring

/-- Parameter record for the C8 witness. -/
def c8P : CavityParameters := ⟨1, 0, 2, 0, 1, 0, 1, false⟩

/-- Witness for C8 at a concrete record, instantiating the pointwise
grid formula at i = 7. -/
theorem c8_default_sampling_witness :
    solve_cavity_s_range c8P none = solve_cavity_s_range c8P (some (defaultSamples c8P)) ∧
    (defaultSamples c8P).length = 50 ∧
    (defaultSamples c8P)[7]? =
      some (((s_bounds c8P).1 + 100e-6) + (7 : ℝ) *
        (((s_bounds c8P).2 - 100e-6) - ((s_bounds c8P).1 + 100e-6)) / 49) ∧
    (defaultSamples c8P)[0]? = some ((s_bounds c8P).1 + 100e-6) ∧
    (defaultSamples c8P)[49]? = some ((s_bounds c8P).2 - 100e-6) := by
  obtain ⟨h1, h2, h3, h4, h5⟩ := c8_default_sampling c8P
  exact ⟨h1, h2, by exact_mod_cast h3 7 (by norm_num), h4, h5⟩

/-! Algebraic helpers for the half-trace stability analysis.  Each
round-trip matrix has A = D, so the half-trace is the A entry, an affine
function of s whose values at the two s_bounds roots are -1 and +1; the
product identity below packages this.  The parameter w stands for
1/cos(alpha) in the tangential plane and for cos(alpha) in the sagittal
plane, and eta stands for eta (plane cut) or eta^3 (Brewster cut). -/

/-- A point strictly between two reals (in either order) makes the
products with the endpoint differences positive. -/
lemma interval_mem_prod_pos {s1 s2 s : ℝ} (hlo : min s1 s2 < s) (shi : s < max s1 s2) :
    0 < (s - s1) * (s2 - s) := by
  rcases le_total s1 s2 with h | h
  · rw [min_eq_left h] at hlo
    rw [max_eq_right h] at shi
    nlinarith
  · rw [min_eq_right h] at hlo
    rw [max_eq_left h] at shi
    nlinarith

/-- Abstract form of the per-plane stability statement: if a function m
satisfies (1-m(s)^2)*(s2-s1)^2 = 4*(s-s1)*(s2-s) with distinct roots,
then |m| < 1 strictly between the sorted roots and |m| = 1 at them. -/
lemma plane_stability_claim (mfun : ℝ → ℝ) (s1 s2 : ℝ)
    (hid : ∀ s, (1 - mfun s ^ 2) * (s2 - s1) ^ 2 = 4 * (s - s1) * (s2 - s))
    (h12 : s1 ≠ s2) :
    (∀ s, min s1 s2 < s → s < max s1 s2 → |mfun s| < 1) ∧
    (∀ s, s = min s1 s2 ∨ s = max s1 s2 → |mfun s| = 1) := by
  have hsq : 0 < (s2 - s1) ^ 2 := by
    have h0 : s2 - s1 ≠ 0 := sub_ne_zero.mpr (Ne.symm h12)
    positivity
  constructor
  · intro s hlo shi
    have hprod := interval_mem_prod_pos hlo shi
    have h1 : 0 < 1 - mfun s ^ 2 := by nlinarith [hid s]
    have h2 : mfun s ^ 2 < 1 := by linarith
    exact (sq_lt_one_iff_abs_lt_one (mfun s)).mp h2
  · intro s hs
    have hzero : (1 - mfun s ^ 2) * (s2 - s1) ^ 2 = 0 := by
      rw [hid s]
      rcases hs with h | h <;> rcases le_total s1 s2 with h' | h' <;>
        rw [h] <;> simp [min_eq_left, min_eq_right, max_eq_left, max_eq_right, h']
    have hm2 : mfun s ^ 2 = 1 := by
      rcases mul_eq_zero.mp hzero with h | h
      · linarith
      · exact absurd h (ne_of_gt hsq)
    have := abs_nonneg (mfun s)
    nlinarith [sq_abs (mfun s)]

/-- The half-trace of a round-trip matrix (its A entry) satisfies the
product identity with the two stability roots of its plane. -/
lemma half_trace_product_identity (f l v s eta w s1 s2 : ℝ) (hf : f ≠ 0) (he : eta ≠ 0)
    (hw : w ≠ 0) (hd : -f + v * w ≠ 0)
    (hs1 : s1 = -l / (2 * eta) + f / w)
    (hs2 : s2 = -l / (2 * eta) + f * v / (-f + v * w)) :
    (1 - ((f ^ 2 * eta - f * (l + 2 * (s + v) * eta) * w
        + v * (l + 2 * s * eta) * w ^ 2) / (f ^ 2 * eta)) ^ 2) * (s2 - s1) ^ 2 =
      4 * (s - s1) * (s2 - s) := by
  subst hs1 hs2
  field_simp
  ring

/-- The two stability roots of a plane are distinct. -/
lemma half_trace_roots_ne (f l v eta w s1 s2 : ℝ) (hf : f ≠ 0) (hw : w ≠ 0)
    (hd : -f + v * w ≠ 0)
    (hs1 : s1 = -l / (2 * eta) + f / w)
    (hs2 : s2 = -l / (2 * eta) + f * v / (-f + v * w)) : s1 ≠ s2 := by
  subst hs1 hs2
  intro h
  apply hf
  have h2 : f / w = f * v / (-f + v * w) := by linarith
  field_simp at h2
  have h3 : f ^ 2 = 0 := by linear_combination -h2
  exact pow_eq_zero_iff (by norm_num) |>.mp h3

/-- The tangential round-trip matrix is unimodular in both crystal-cut
variants. -/
lemma construct_tangential_matrix_det (p : CavityParameters) (hf : p.f ≠ 0)
    (he : p.eta ≠ 0) (hc : Real.cos p.alpha ≠ 0) :
    (construct_tangential_matrix p).det = 1 := by
  have hw : (Real.cos p.alpha)⁻¹ ≠ 0 := inv_ne_zero hc
  rcases hb : p.Brewster with _ | _ <;>
    simp only [construct_tangential_matrix, hb, Bool.false_eq_true,
      if_false, if_true, TransferMatrix.det] <;>
    field_simp <;>
    ring

/-- The sagittal round-trip matrix is unimodular. -/
lemma construct_sagittal_matrix_det (p : CavityParameters) (hf : p.f ≠ 0)
    (he : p.eta ≠ 0) (hc : Real.cos p.alpha ≠ 0) :
    (construct_sagittal_matrix p).det = 1 := by
  simp only [construct_sagittal_matrix, TransferMatrix.det]
  field_simp
  ring

/-- The tangential crystal-to-secondary-focus matrix is unimodular in
both crystal-cut variants. -/
lemma secondary_focus_tangential_det (p : CavityParameters) (hf : p.f ≠ 0)
    (he : p.eta ≠ 0) (hc : Real.cos p.alpha ≠ 0) :
    (construct_secondary_focus_matrix_tangential p).det = 1 := by
  have hw : (Real.cos p.alpha)⁻¹ ≠ 0 := inv_ne_zero hc
  rcases hb : p.Brewster with _ | _ <;>
    simp only [construct_secondary_focus_matrix_tangential, hb, Bool.false_eq_true,
      if_false, if_true, TransferMatrix.det] <;>
    field_simp <;>
    ring

/-- The sagittal crystal-to-secondary-focus matrix is unimodular. -/
lemma secondary_focus_sagittal_det (p : CavityParameters) (hf : p.f ≠ 0)
    (he : p.eta ≠ 0) (hc : Real.cos p.alpha ≠ 0) :
    (construct_secondary_focus_matrix_sagittal p).det = 1 := by
  simp only [construct_secondary_focus_matrix_sagittal, TransferMatrix.det]
  field_simp
  ring

/-! Claim C6 -/

/-- C6: the tangential (Brewster and plane variants) and sagittal
round-trip matrices have determinant exactly 1 when f, eta and
cos(alpha) are nonzero. -/
theorem c6_roundtrip_matrices_unimodular (p : CavityParameters) (hf : p.f ≠ 0)
    (he : p.eta ≠ 0) (hc : Real.cos p.alpha ≠ 0) :
    (construct_tangential_matrix p).det = 1 ∧ (construct_sagittal_matrix p).det = 1 :=
  ⟨construct_tangential_matrix_det p hf he hc, construct_sagittal_matrix_det p hf he hc⟩

/-- Brewster-cut parameter record with nonzero f, eta, cos(alpha) used
as the C6 witness input. -/
def c6P : CavityParameters := ⟨1, 1, 1, 1, 2, 0, 1, true⟩

/-- Witness for C6 at a concrete Brewster-cut record. -/
theorem c6_roundtrip_matrices_unimodular_witness :
    (c6P.f ≠ 0 ∧ c6P.eta ≠ 0 ∧ Real.cos c6P.alpha ≠ 0) ∧
      (construct_tangential_matrix c6P).det = 1 ∧
      (construct_sagittal_matrix c6P).det = 1 :=
  ⟨⟨by norm_num [c6P], by norm_num [c6P], by norm_num [c6P, Real.cos_zero]⟩,
    c6_roundtrip_matrices_unimodular c6P (by norm_num [c6P]) (by norm_num [c6P])
      (by norm_num [c6P, Real.cos_zero])⟩

/-! Claim C2 -/

/-- Per-plane stability statement for the tangential plane: strictly
between the s_bounds_tangential roots the half-trace is below 1 in
magnitude, and exactly 1 at the roots. -/
lemma tangential_plane_stability (p : CavityParameters) (hf : p.f ≠ 0) (he : p.eta ≠ 0)
    (hc : Real.cos p.alpha ≠ 0) (hdt : -p.f + p.v * (Real.cos p.alpha)⁻¹ ≠ 0) :
    (∀ s, (s_bounds_tangential p).1 < s → s < (s_bounds_tangential p).2 →
        |get_m (construct_tangential_matrix { p with s := s })| < 1) ∧
    (∀ s, s = (s_bounds_tangential p).1 ∨ s = (s_bounds_tangential p).2 →
        |get_m (construct_tangential_matrix { p with s := s })| = 1) := by
  have hw : (Real.cos p.alpha)⁻¹ ≠ 0 := inv_ne_zero hc
  rcases (Bool.eq_false_or_eq_true p.Brewster).symm with hb | hb
  · have hSa : (s_bounds_tangential p).1 =
        min (-p.l / (2 * p.eta) + p.f * Real.cos p.alpha)
            (-p.l / (2 * p.eta) + (p.f * p.v) / (-p.f + p.v * (Real.cos p.alpha)⁻¹)) := by
      simp [s_bounds_tangential, hb]
    have hSb : (s_bounds_tangential p).2 =
        max (-p.l / (2 * p.eta) + p.f * Real.cos p.alpha)
            (-p.l / (2 * p.eta) + (p.f * p.v) / (-p.f + p.v * (Real.cos p.alpha)⁻¹)) := by
      simp [s_bounds_tangential, hb]
    have hS1w : -p.l / (2 * p.eta) + p.f * Real.cos p.alpha
        = -p.l / (2 * p.eta) + p.f / (Real.cos p.alpha)⁻¹ := by
      rw [div_inv_eq_mul]
    have hS2w : -p.l / (2 * p.eta) + (p.f * p.v) / (-p.f + p.v * (Real.cos p.alpha)⁻¹)
        = -p.l / (2 * p.eta) + p.f * p.v / (-p.f + p.v * (Real.cos p.alpha)⁻¹) := rfl
    have hmf : ∀ s, get_m (construct_tangential_matrix { p with s := s }) =
        (p.f ^ 2 * p.eta - p.f * (p.l + 2 * (s + p.v) * p.eta) * (Real.cos p.alpha)⁻¹
          + p.v * (p.l + 2 * s * p.eta) * ((Real.cos p.alpha)⁻¹) ^ 2) / (p.f ^ 2 * p.eta) := by
      intro s
      simp only [construct_tangential_matrix, get_m, hb, Bool.false_eq_true, if_false]
      ring
    have hid : ∀ s, (1 - (get_m (construct_tangential_matrix { p with s := s })) ^ 2) *
        ((-p.l / (2 * p.eta) + (p.f * p.v) / (-p.f + p.v * (Real.cos p.alpha)⁻¹))
          - (-p.l / (2 * p.eta) + p.f * Real.cos p.alpha)) ^ 2 =
        4 * (s - (-p.l / (2 * p.eta) + p.f * Real.cos p.alpha)) *
          ((-p.l / (2 * p.eta) + (p.f * p.v) / (-p.f + p.v * (Real.cos p.alpha)⁻¹)) - s) := by
      intro s
      rw [hmf s]
      exact half_trace_product_identity p.f p.l p.v s p.eta (Real.cos p.alpha)⁻¹ _ _
        hf he hw hdt hS1w hS2w
    have hne := half_trace_roots_ne p.f p.l p.v p.eta (Real.cos p.alpha)⁻¹ _ _
      hf hw hdt hS1w hS2w
    rw [hSa, hSb]
    exact plane_stability_claim
      (fun s => get_m (construct_tangential_matrix { p with s := s })) _ _ hid hne
  · have he3 : p.eta ^ 3 ≠ 0 := pow_ne_zero 3 he
    have hSa : (s_bounds_tangential p).1 =
        min (-(p.l / (2 * p.eta ^ 3)) + p.f * Real.cos p.alpha)
            (-(p.l / (2 * p.eta ^ 3)) + (p.f * p.v) / (-p.f + p.v * (Real.cos p.alpha)⁻¹)) := by
      simp [s_bounds_tangential, hb]
    have hSb : (s_bounds_tangential p).2 =
        max (-(p.l / (2 * p.eta ^ 3)) + p.f * Real.cos p.alpha)
            (-(p.l / (2 * p.eta ^ 3)) + (p.f * p.v) / (-p.f + p.v * (Real.cos p.alpha)⁻¹)) := by
      simp [s_bounds_tangential, hb]
    have hS1w : -(p.l / (2 * p.eta ^ 3)) + p.f * Real.cos p.alpha
        = -p.l / (2 * p.eta ^ 3) + p.f / (Real.cos p.alpha)⁻¹ := by
      rw [div_inv_eq_mul, neg_div]
    have hS2w : -(p.l / (2 * p.eta ^ 3)) + (p.f * p.v) / (-p.f + p.v * (Real.cos p.alpha)⁻¹)
        = -p.l / (2 * p.eta ^ 3) + p.f * p.v / (-p.f + p.v * (Real.cos p.alpha)⁻¹) := by
      rw [neg_div]
    have hmf : ∀ s, get_m (construct_tangential_matrix { p with s := s }) =
        (p.f ^ 2 * p.eta ^ 3 - p.f * (p.l + 2 * (s + p.v) * p.eta ^ 3) * (Real.cos p.alpha)⁻¹
          + p.v * (p.l + 2 * s * p.eta ^ 3) * ((Real.cos p.alpha)⁻¹) ^ 2)
          / (p.f ^ 2 * p.eta ^ 3) := by
      intro s
      simp only [construct_tangential_matrix, get_m, hb, if_true]
      ring
    have hid : ∀ s, (1 - (get_m (construct_tangential_matrix { p with s := s })) ^ 2) *
        ((-(p.l / (2 * p.eta ^ 3)) + (p.f * p.v) / (-p.f + p.v * (Real.cos p.alpha)⁻¹))
          - (-(p.l / (2 * p.eta ^ 3)) + p.f * Real.cos p.alpha)) ^ 2 =
        4 * (s - (-(p.l / (2 * p.eta ^ 3)) + p.f * Real.cos p.alpha)) *
          ((-(p.l / (2 * p.eta ^ 3)) + (p.f * p.v) / (-p.f + p.v * (Real.cos p.alpha)⁻¹)) - s) := by
      intro s
      rw [hmf s]
      exact half_trace_product_identity p.f p.l p.v s (p.eta ^ 3) (Real.cos p.alpha)⁻¹ _ _
        hf he3 hw hdt hS1w hS2w
    have hne := half_trace_roots_ne p.f p.l p.v (p.eta ^ 3) (Real.cos p.alpha)⁻¹ _ _
      hf hw hdt hS1w hS2w
    rw [hSa, hSb]
    exact plane_stability_claim
      (fun s => get_m (construct_tangential_matrix { p with s := s })) _ _ hid hne

/-- Per-plane stability statement for the sagittal plane. -/
lemma sagittal_plane_stability (p : CavityParameters) (hf : p.f ≠ 0) (he : p.eta ≠ 0)
    (hc : Real.cos p.alpha ≠ 0) (hds : -p.f + p.v * Real.cos p.alpha ≠ 0) :
    (∀ s, (s_bounds_sagittal p).1 < s → s < (s_bounds_sagittal p).2 →
        |get_m (construct_sagittal_matrix { p with s := s })| < 1) ∧
    (∀ s, s = (s_bounds_sagittal p).1 ∨ s = (s_bounds_sagittal p).2 →
        |get_m (construct_sagittal_matrix { p with s := s })| = 1) := by
  have hSa : (s_bounds_sagittal p).1 =
      min (-p.l / (2 * p.eta) + p.f * (Real.cos p.alpha)⁻¹)
          (-p.l / (2 * p.eta) + p.f * p.v / (-p.f + p.v * Real.cos p.alpha)) := by
    simp [s_bounds_sagittal]
  have hSb : (s_bounds_sagittal p).2 =
      max (-p.l / (2 * p.eta) + p.f * (Real.cos p.alpha)⁻¹)
          (-p.l / (2 * p.eta) + p.f * p.v / (-p.f + p.v * Real.cos p.alpha)) := by
    simp [s_bounds_sagittal]
  have hS1w : -p.l / (2 * p.eta) + p.f * (Real.cos p.alpha)⁻¹
      = -p.l / (2 * p.eta) + p.f / Real.cos p.alpha := by
    rw [div_eq_mul_inv p.f (Real.cos p.alpha)]
  have hS2w : -p.l / (2 * p.eta) + p.f * p.v / (-p.f + p.v * Real.cos p.alpha)
      = -p.l / (2 * p.eta) + p.f * p.v / (-p.f + p.v * Real.cos p.alpha) := rfl
  have hmf : ∀ s, get_m (construct_sagittal_matrix { p with s := s }) =
      (p.f ^ 2 * p.eta - p.f * (p.l + 2 * (s + p.v) * p.eta) * Real.cos p.alpha
        + p.v * (p.l + 2 * s * p.eta) * (Real.cos p.alpha) ^ 2) / (p.f ^ 2 * p.eta) := by
    intro s
    simp only [construct_sagittal_matrix, get_m]
    ring
  have hid : ∀ s, (1 - (get_m (construct_sagittal_matrix { p with s := s })) ^ 2) *
      ((-p.l / (2 * p.eta) + p.f * p.v / (-p.f + p.v * Real.cos p.alpha))
        - (-p.l / (2 * p.eta) + p.f * (Real.cos p.alpha)⁻¹)) ^ 2 =
      4 * (s - (-p.l / (2 * p.eta) + p.f * (Real.cos p.alpha)⁻¹)) *
        ((-p.l / (2 * p.eta) + p.f * p.v / (-p.f + p.v * Real.cos p.alpha)) - s) := by
    intro s
    rw [hmf s]
    exact half_trace_product_identity p.f p.l p.v s p.eta (Real.cos p.alpha) _ _
      hf he hc hds hS1w hS2w
  have hne := half_trace_roots_ne p.f p.l p.v p.eta (Real.cos p.alpha) _ _
    hf hc hds hS1w hS2w
  rw [hSa, hSb]
  exact plane_stability_claim
    (fun s => get_m (construct_sagittal_matrix { p with s := s })) _ _ hid hne

/-- Away from a zero tangential root denominator, the extended-real
model of s_bounds_tangential agrees with the real-valued one. -/
lemma s_bounds_tangential_np_eq (p : CavityParameters)
    (hd : -p.f + p.v * (Real.cos p.alpha)⁻¹ ≠ 0) :
    s_bounds_tangential_np p =
      ((((s_bounds_tangential p).1 : ℝ) : EReal), (((s_bounds_tangential p).2 : ℝ) : EReal)) := by
  simp only [s_bounds_tangential_np, s_bounds_tangential, np_div, if_neg hd]
  rcases (Bool.eq_false_or_eq_true p.Brewster).symm with hb | hb <;>
    simp only [hb, Bool.false_eq_true, if_false, if_true, Prod.mk.injEq] <;>
    constructor <;>
    simp only [EReal.coe_strictMono.monotone.map_min,
      EReal.coe_strictMono.monotone.map_max, EReal.coe_add]

/-- Away from a zero sagittal root denominator, the extended-real model
of s_bounds_sagittal agrees with the real-valued one. -/
lemma s_bounds_sagittal_np_eq (p : CavityParameters)
    (hd : -p.f + p.v * Real.cos p.alpha ≠ 0) :
    s_bounds_sagittal_np p =
      ((((s_bounds_sagittal p).1 : ℝ) : EReal), (((s_bounds_sagittal p).2 : ℝ) : EReal)) := by
  simp only [s_bounds_sagittal_np, s_bounds_sagittal, np_div, if_neg hd]
  rw [Prod.mk.injEq]
  constructor <;>
    simp only [EReal.coe_strictMono.monotone.map_min,
      EReal.coe_strictMono.monotone.map_max, EReal.coe_add]

/-- C2 (amended): for every record with f, eta and cos(alpha) nonzero,
each plane's relation holds whenever that plane's root denominator is
nonzero: if -f + v/cos(alpha) is nonzero, the two values returned by
s_bounds_tangential are exactly the roots of the half-trace stability
boundary of construct_tangential_matrix (|get_m| < 1 strictly between
them, |get_m| = 1 at either bound), in both the Brewster and plane
variants; and likewise for s_bounds_sagittal and
construct_sagittal_matrix when -f + v*cos(alpha) is nonzero.  The
per-plane guards are forced: at a zero denominator the source's
returned interval is half-infinite (numpy division by zero) and the
half-trace is identically -1 on it, failing |get_m| < 1 strictly inside
(see the counterexample, which exhibits both failures at one input). -/
theorem c2_half_trace_roots (p : CavityParameters) (hf : p.f ≠ 0) (he : p.eta ≠ 0)
    (hc : Real.cos p.alpha ≠ 0) :
    (-p.f + p.v * (Real.cos p.alpha)⁻¹ ≠ 0 →
      (∀ s, (s_bounds_tangential p).1 < s → s < (s_bounds_tangential p).2 →
        |get_m (construct_tangential_matrix { p with s := s })| < 1) ∧
      (∀ s, s = (s_bounds_tangential p).1 ∨ s = (s_bounds_tangential p).2 →
        |get_m (construct_tangential_matrix { p with s := s })| = 1)) ∧
    (-p.f + p.v * Real.cos p.alpha ≠ 0 →
      (∀ s, (s_bounds_sagittal p).1 < s → s < (s_bounds_sagittal p).2 →
        |get_m (construct_sagittal_matrix { p with s := s })| < 1) ∧
      (∀ s, s = (s_bounds_sagittal p).1 ∨ s = (s_bounds_sagittal p).2 →
        |get_m (construct_sagittal_matrix { p with s := s })| = 1)) :=
  ⟨fun hdt => tangential_plane_stability p hf he hc hdt,
   fun hds => sagittal_plane_stability p hf he hc hds⟩

/-- Degenerate parameter record (f = l = v = eta = 1, alpha = 0) at
which both root denominators are exactly zero, the source returns the
half-infinite interval (1/2, +inf) in both planes, and its s = 1 lies
strictly inside; the half-trace there is -1 in both planes. -/
def c2CounterP : CavityParameters := ⟨1, 1, 1, 1, 1, 0, 1, false⟩

/-- C2 counterexample: at a record satisfying the claim's stated
hypotheses (f, eta, cos(alpha) nonzero) both root denominators are
exactly zero; in the faithful extended-real model of the source's
division both planes' returned intervals are (1/2, +inf), the record's
s = 1 lies strictly between the returned values in both planes, yet
both half-traces have magnitude exactly 1, not below 1 — refuting the
claim in both planes at one concrete input. -/
theorem c2_counterexample :
    (c2CounterP.f ≠ 0 ∧ c2CounterP.eta ≠ 0 ∧ Real.cos c2CounterP.alpha ≠ 0) ∧
    ((s_bounds_tangential_np c2CounterP).1 = ((1 / 2 : ℝ) : EReal) ∧
      (s_bounds_tangential_np c2CounterP).2 = ⊤) ∧
    ((s_bounds_sagittal_np c2CounterP).1 = ((1 / 2 : ℝ) : EReal) ∧
      (s_bounds_sagittal_np c2CounterP).2 = ⊤) ∧
    ((s_bounds_tangential_np c2CounterP).1 < ((c2CounterP.s : ℝ) : EReal) ∧
      ((c2CounterP.s : ℝ) : EReal) < (s_bounds_tangential_np c2CounterP).2) ∧
    ((s_bounds_sagittal_np c2CounterP).1 < ((c2CounterP.s : ℝ) : EReal) ∧
      ((c2CounterP.s : ℝ) : EReal) < (s_bounds_sagittal_np c2CounterP).2) ∧
    |get_m (construct_tangential_matrix c2CounterP)| = 1 ∧
    |get_m (construct_sagittal_matrix c2CounterP)| = 1 := by
  have ht1 : (s_bounds_tangential_np c2CounterP).1 = ((1 / 2 : ℝ) : EReal) := by
    norm_num [s_bounds_tangential_np, c2CounterP, np_div, Real.cos_zero,
      EReal.coe_add_top, min_eq_left, max_eq_right, le_top]
  have ht2 : (s_bounds_tangential_np c2CounterP).2 = (⊤ : EReal) := by
    norm_num [s_bounds_tangential_np, c2CounterP, np_div, Real.cos_zero,
      EReal.coe_add_top, min_eq_left, max_eq_right, le_top]
  have hg1 : (s_bounds_sagittal_np c2CounterP).1 = ((1 / 2 : ℝ) : EReal) := by
    norm_num [s_bounds_sagittal_np, c2CounterP, np_div, Real.cos_zero,
      EReal.coe_add_top, min_eq_left, max_eq_right, le_top]
  have hg2 : (s_bounds_sagittal_np c2CounterP).2 = (⊤ : EReal) := by
    norm_num [s_bounds_sagittal_np, c2CounterP, np_div, Real.cos_zero,
      EReal.coe_add_top, min_eq_left, max_eq_right, le_top]
  have hs : ((c2CounterP.s : ℝ) : EReal) = ((1 : ℝ) : EReal) := by
    norm_num [c2CounterP]
  have hmt : get_m (construct_tangential_matrix c2CounterP) = -1 := by
    simp only [construct_tangential_matrix, get_m, c2CounterP, Real.cos_zero,
      Bool.false_eq_true, if_false]
    norm_num
  have hms : get_m (construct_sagittal_matrix c2CounterP) = -1 := by
    simp only [construct_sagittal_matrix, get_m, c2CounterP, Real.cos_zero]
    norm_num
  refine ⟨⟨by norm_num [c2CounterP], by norm_num [c2CounterP],
    by norm_num [c2CounterP, Real.cos_zero]⟩, ⟨ht1, ht2⟩, ⟨hg1, hg2⟩, ?_, ?_, ?_, ?_⟩
  · rw [ht1, ht2, hs]
    exact ⟨EReal.coe_lt_coe_iff.mpr (by norm_num), EReal.coe_lt_top 1⟩
  · rw [hg1, hg2, hs]
    exact ⟨EReal.coe_lt_coe_iff.mpr (by norm_num), EReal.coe_lt_top 1⟩
  · rw [hmt]
    norm_num
  · rw [hms]
    norm_num

/-- Nondegenerate parameter record used as the C2 witness input, with
per-plane stability interval (1, 2) in both planes. -/
def c2WitnessP : CavityParameters := ⟨1, 0, 2, 0, 1, 0, 1, false⟩

/-- Witness for C2: at a concrete record the tangential half-trace has
magnitude below 1 at s = 3/2 strictly inside the bounds and exactly 1 at
the lower bound, and likewise for the sagittal plane. -/
theorem c2_half_trace_roots_witness :
    (c2WitnessP.f ≠ 0 ∧ c2WitnessP.eta ≠ 0 ∧ Real.cos c2WitnessP.alpha ≠ 0 ∧
      -c2WitnessP.f + c2WitnessP.v * (Real.cos c2WitnessP.alpha)⁻¹ ≠ 0 ∧
      -c2WitnessP.f + c2WitnessP.v * Real.cos c2WitnessP.alpha ≠ 0) ∧
    |get_m (construct_tangential_matrix { c2WitnessP with s := 3/2 })| < 1 ∧
    |get_m (construct_tangential_matrix
      { c2WitnessP with s := (s_bounds_tangential c2WitnessP).1 })| = 1 ∧
    |get_m (construct_sagittal_matrix { c2WitnessP with s := 3/2 })| < 1 ∧
    |get_m (construct_sagittal_matrix
      { c2WitnessP with s := (s_bounds_sagittal c2WitnessP).1 })| = 1 := by
  have h1 : c2WitnessP.f ≠ 0 := by norm_num [c2WitnessP]
  have h2 : c2WitnessP.eta ≠ 0 := by norm_num [c2WitnessP]
  have h3 : Real.cos c2WitnessP.alpha ≠ 0 := by norm_num [c2WitnessP, Real.cos_zero]
  have h4 : -c2WitnessP.f + c2WitnessP.v * (Real.cos c2WitnessP.alpha)⁻¹ ≠ 0 := by
    norm_num [c2WitnessP, Real.cos_zero]
  have h5 : -c2WitnessP.f + c2WitnessP.v * Real.cos c2WitnessP.alpha ≠ 0 := by
    norm_num [c2WitnessP, Real.cos_zero]
  obtain ⟨hT, hG⟩ := c2_half_trace_roots c2WitnessP h1 h2 h3
  obtain ⟨ht1, ht2⟩ := hT h4
  obtain ⟨hg1, hg2⟩ := hG h5
  have hbt : s_bounds_tangential c2WitnessP = (1, 2) := by
    simp only [s_bounds_tangential, c2WitnessP, Real.cos_zero, Bool.false_eq_true, if_false]
    norm_num [min_def, max_def]
  have hbs : s_bounds_sagittal c2WitnessP = (1, 2) := by
    simp only [s_bounds_sagittal, c2WitnessP, Real.cos_zero]
    norm_num [min_def, max_def]
  refine ⟨⟨h1, h2, h3, h4, h5⟩, ?_, ?_, ?_, ?_⟩
  · exact ht1 (3/2) (by rw [hbt]; norm_num) (by rw [hbt]; norm_num)
  · exact ht2 _ (Or.inl rfl)
  · exact hg1 (3/2) (by rw [hbs]; norm_num) (by rw [hbs]; norm_num)
  · exact hg2 _ (Or.inl rfl)

/-! Claim C10 -/

/-- Factorization of the plane-variant matrix B entry through the two
stability roots: B = 2*w*(v*w-f)/f^2 * (s-s1)*(s-s2). -/
lemma B_factor_identity (f l v s eta w s1 s2 : ℝ) (hf : f ≠ 0) (he : eta ≠ 0)
    (hw : w ≠ 0) (hd : -f + v * w ≠ 0)
    (hs1 : s1 = -l / (2 * eta) + f / w)
    (hs2 : s2 = -l / (2 * eta) + f * v / (-f + v * w)) :
    ((2 * f * eta - (l + 2 * s * eta) * w) * (f * (l + 2 * (s + v) * eta)
        - v * (l + 2 * s * eta) * w)) / (2 * f ^ 2 * eta ^ 2) =
      (2 * w * (v * w - f) / f ^ 2) * ((s - s1) * (s - s2)) := by
  subst hs1 hs2
  field_simp
  ring

/-- Factorization of the Brewster-variant tangential B entry through the
two Brewster stability roots: B = 2*eta^2*w*(v*w-f)/f^2 * (s-s1)*(s-s2). -/
lemma B_factor_identity_brewster (f l v s eta w s1 s2 : ℝ) (hf : f ≠ 0) (he : eta ≠ 0)
    (hw : w ≠ 0) (hd : -f + v * w ≠ 0)
    (hs1 : s1 = -l / (2 * eta ^ 3) + f / w)
    (hs2 : s2 = -l / (2 * eta ^ 3) + f * v / (-f + v * w)) :
    ((2 * f * eta ^ 3 - (l + 2 * s * eta ^ 3) * w) * (f * (l + 2 * (s + v) * eta ^ 3)
        - v * (l + 2 * s * eta ^ 3) * w)) / (2 * f ^ 2 * eta ^ 4) =
      (2 * eta ^ 2 * w * (v * w - f) / f ^ 2) * ((s - s1) * (s - s2)) := by
  subst hs1 hs2
  field_simp
  ring

/-- The B entry of the tangential round-trip matrix is negative for s
strictly inside the tangential stability interval, provided the matrix
geometry satisfies f < v/cos(alpha) with positive cosine. -/
lemma tangential_B_neg (p : CavityParameters) (hf : p.f ≠ 0) (he : p.eta ≠ 0)
    (hcpos : 0 < Real.cos p.alpha) (hvw : p.f < p.v * (Real.cos p.alpha)⁻¹)
    (hlo : (s_bounds_tangential p).1 < p.s) (hhi : p.s < (s_bounds_tangential p).2) :
    (construct_tangential_matrix p).B < 0 := by
  have hwpos : 0 < (Real.cos p.alpha)⁻¹ := inv_pos.mpr hcpos
  have hw : (Real.cos p.alpha)⁻¹ ≠ 0 := hwpos.ne'
  have hdt : -p.f + p.v * (Real.cos p.alpha)⁻¹ ≠ 0 := by
    have : 0 < -p.f + p.v * (Real.cos p.alpha)⁻¹ := by linarith
    exact this.ne'
  have hKpos : 0 < 2 * (Real.cos p.alpha)⁻¹ * (p.v * (Real.cos p.alpha)⁻¹ - p.f) / p.f ^ 2 := by
    have h2 : 0 < p.f ^ 2 := by positivity
    have h3 : 0 < p.v * (Real.cos p.alpha)⁻¹ - p.f := by linarith
    positivity
  rcases (Bool.eq_false_or_eq_true p.Brewster).symm with hb | hb
  · have hSa : (s_bounds_tangential p).1 =
        min (-p.l / (2 * p.eta) + p.f * Real.cos p.alpha)
            (-p.l / (2 * p.eta) + (p.f * p.v) / (-p.f + p.v * (Real.cos p.alpha)⁻¹)) := by
      simp [s_bounds_tangential, hb]
    have hSb : (s_bounds_tangential p).2 =
        max (-p.l / (2 * p.eta) + p.f * Real.cos p.alpha)
            (-p.l / (2 * p.eta) + (p.f * p.v) / (-p.f + p.v * (Real.cos p.alpha)⁻¹)) := by
      simp [s_bounds_tangential, hb]
    have hS1w : -p.l / (2 * p.eta) + p.f * Real.cos p.alpha
        = -p.l / (2 * p.eta) + p.f / (Real.cos p.alpha)⁻¹ := by
      rw [div_inv_eq_mul]
    have hBval : (construct_tangential_matrix p).B =
        ((2 * p.f * p.eta - (p.l + 2 * p.s * p.eta) * (Real.cos p.alpha)⁻¹)
          * (p.f * (p.l + 2 * (p.s + p.v) * p.eta)
            - p.v * (p.l + 2 * p.s * p.eta) * (Real.cos p.alpha)⁻¹)) / (2 * p.f ^ 2 * p.eta ^ 2) := by
      simp only [construct_tangential_matrix, hb, Bool.false_eq_true, if_false]
    rw [hBval, B_factor_identity p.f p.l p.v p.s p.eta (Real.cos p.alpha)⁻¹ _ _
      hf he hw hdt hS1w rfl]
    rw [hSa] at hlo
    rw [hSb] at hhi
    have hprod := interval_mem_prod_pos hlo hhi
    apply mul_neg_of_pos_of_neg hKpos
    nlinarith
  · have he3 : p.eta ^ 3 ≠ 0 := pow_ne_zero 3 he
    have hSa : (s_bounds_tangential p).1 =
        min (-(p.l / (2 * p.eta ^ 3)) + p.f * Real.cos p.alpha)
            (-(p.l / (2 * p.eta ^ 3)) + (p.f * p.v) / (-p.f + p.v * (Real.cos p.alpha)⁻¹)) := by
      simp [s_bounds_tangential, hb]
    have hSb : (s_bounds_tangential p).2 =
        max (-(p.l / (2 * p.eta ^ 3)) + p.f * Real.cos p.alpha)
            (-(p.l / (2 * p.eta ^ 3)) + (p.f * p.v) / (-p.f + p.v * (Real.cos p.alpha)⁻¹)) := by
      simp [s_bounds_tangential, hb]
    have hS1w : -(p.l / (2 * p.eta ^ 3)) + p.f * Real.cos p.alpha
        = -p.l / (2 * p.eta ^ 3) + p.f / (Real.cos p.alpha)⁻¹ := by
      rw [div_inv_eq_mul, neg_div]
    have hS2w : -(p.l / (2 * p.eta ^ 3)) + (p.f * p.v) / (-p.f + p.v * (Real.cos p.alpha)⁻¹)
        = -p.l / (2 * p.eta ^ 3) + p.f * p.v / (-p.f + p.v * (Real.cos p.alpha)⁻¹) := by
      rw [neg_div]
    have hBval : (construct_tangential_matrix p).B =
        ((2 * p.f * p.eta ^ 3 - (p.l + 2 * p.s * p.eta ^ 3) * (Real.cos p.alpha)⁻¹)
          * (p.f * (p.l + 2 * (p.s + p.v) * p.eta ^ 3)
            - p.v * (p.l + 2 * p.s * p.eta ^ 3) * (Real.cos p.alpha)⁻¹))
          / (2 * p.f ^ 2 * p.eta ^ 4) := by
      simp only [construct_tangential_matrix, hb, if_true]
    rw [hBval, B_factor_identity_brewster p.f p.l p.v p.s p.eta (Real.cos p.alpha)⁻¹ _ _
      hf he hw hdt hS1w hS2w]
    rw [hSa] at hlo
    rw [hSb] at hhi
    have hprod := interval_mem_prod_pos hlo hhi
    have hKpos2 : 0 < 2 * p.eta ^ 2 * (Real.cos p.alpha)⁻¹
        * (p.v * (Real.cos p.alpha)⁻¹ - p.f) / p.f ^ 2 := by
      have h2 : 0 < p.f ^ 2 := by positivity
      have h3 : 0 < p.v * (Real.cos p.alpha)⁻¹ - p.f := by linarith
      have h4 : 0 < p.eta ^ 2 := by
        have : p.eta ≠ 0 := he
        positivity
      positivity
    apply mul_neg_of_pos_of_neg hKpos2
    nlinarith

/-- The B entry of the sagittal round-trip matrix is negative for s
strictly inside the sagittal stability interval, provided the geometry
satisfies f < v*cos(alpha) with positive cosine. -/
lemma sagittal_B_neg (p : CavityParameters) (hf : p.f ≠ 0) (he : p.eta ≠ 0)
    (hcpos : 0 < Real.cos p.alpha) (hfv : p.f < p.v * Real.cos p.alpha)
    (hlo : (s_bounds_sagittal p).1 < p.s) (hhi : p.s < (s_bounds_sagittal p).2) :
    (construct_sagittal_matrix p).B < 0 := by
  have hc : Real.cos p.alpha ≠ 0 := hcpos.ne'
  have hds : -p.f + p.v * Real.cos p.alpha ≠ 0 := by
    have : 0 < -p.f + p.v * Real.cos p.alpha := by linarith
    exact this.ne'
  have hSa : (s_bounds_sagittal p).1 =
      min (-p.l / (2 * p.eta) + p.f * (Real.cos p.alpha)⁻¹)
          (-p.l / (2 * p.eta) + p.f * p.v / (-p.f + p.v * Real.cos p.alpha)) := by
    simp [s_bounds_sagittal]
  have hSb : (s_bounds_sagittal p).2 =
      max (-p.l / (2 * p.eta) + p.f * (Real.cos p.alpha)⁻¹)
          (-p.l / (2 * p.eta) + p.f * p.v / (-p.f + p.v * Real.cos p.alpha)) := by
    simp [s_bounds_sagittal]
  have hS1w : -p.l / (2 * p.eta) + p.f * (Real.cos p.alpha)⁻¹
      = -p.l / (2 * p.eta) + p.f / Real.cos p.alpha := by
    rw [div_eq_mul_inv p.f (Real.cos p.alpha)]
  have hBval : (construct_sagittal_matrix p).B =
      ((2 * p.f * p.eta - (p.l + 2 * p.s * p.eta) * Real.cos p.alpha)
        * (p.f * (p.l + 2 * (p.s + p.v) * p.eta)
          - p.v * (p.l + 2 * p.s * p.eta) * Real.cos p.alpha)) / (2 * p.f ^ 2 * p.eta ^ 2) := by
    simp only [construct_sagittal_matrix]
  rw [hBval, B_factor_identity p.f p.l p.v p.s p.eta (Real.cos p.alpha) _ _
    hf he hc hds hS1w rfl]
  rw [hSa] at hlo
  rw [hSb] at hhi
  have hprod := interval_mem_prod_pos hlo hhi
  have hKpos : 0 < 2 * Real.cos p.alpha * (p.v * Real.cos p.alpha - p.f) / p.f ^ 2 := by
    have h2 : 0 < p.f ^ 2 := by positivity
    have h3 : 0 < p.v * Real.cos p.alpha - p.f := by linarith
    positivity
  apply mul_neg_of_pos_of_neg hKpos
  nlinarith

/-- A Möbius transform by a unimodular real matrix with destination
index 1 preserves the upper half plane: propagate(q, M, 1, eta) keeps a
positive imaginary part. -/
lemma propagate_one_im_pos (M : TransferMatrix) (q : ℂ) (eta : ℝ)
    (hdet : M.det = 1) (heta : 0 < eta) (hq : 0 < q.im) :
    0 < (propagate q M 1 eta).im := by
  rw [TransferMatrix.det] at hdet
  have hetane : eta ≠ 0 := heta.ne'
  have hden : (M.C : ℂ) * q / (eta : ℂ) + (M.D : ℂ) ≠ 0 := by
    by_cases hC : M.C = 0
    · have hD : M.D ≠ 0 := by
        intro hD0
        rw [hC, hD0] at hdet
        simp at hdet
      rw [hC]
      simp
      exact_mod_cast hD
    · intro h0
      have him := congrArg Complex.im h0
      simp only [Complex.add_im, Complex.div_ofReal_im, Complex.im_ofReal_mul,
        Complex.ofReal_im, Complex.zero_im] at him
      have hz : M.C * q.im / eta = 0 := by linarith
      rcases div_eq_zero_iff.mp hz with h | h
      · rcases mul_eq_zero.mp h with h | h
        · exact hC h
        · exact hq.ne' h
      · exact hetane h
  have hnum : ((M.A : ℂ) * q / eta + M.B).im * ((M.C : ℂ) * q / eta + M.D).re -
      ((M.A : ℂ) * q / eta + M.B).re * ((M.C : ℂ) * q / eta + M.D).im
      = q.im / eta := by
    simp only [Complex.add_im, Complex.add_re, Complex.div_ofReal_im, Complex.div_ofReal_re,
      Complex.im_ofReal_mul, Complex.re_ofReal_mul, Complex.ofReal_im, Complex.ofReal_re]
    field_simp
    linear_combination (q.im * eta ^ 2) * hdet
  rw [propagate, Complex.div_im, div_sub_div_same]
  simp only [Complex.ofReal_one, one_mul]
  rw [hnum]
  exact div_pos (div_pos hq heta) (Complex.normSq_pos.mpr hden)

/-- get_w is strictly positive when Im(1/q) is negative and the
refractive index and wavelength are positive. -/
lemma get_w_pos (q : ℂ) (eta lam : ℝ) (heta : 0 < eta) (hlam : 0 < lam)
    (hqi : (q⁻¹).im < 0) : 0 < get_w q eta lam := by
  simp only [get_w]
  have hinner : 0 < -lam / (Real.pi * eta * (q⁻¹).im) := by
    apply div_pos_of_neg_of_neg
    · linarith
    · exact mul_neg_of_pos_of_neg (mul_pos Real.pi_pos heta) hqi
  rw [if_neg (not_lt.mpr hinner.le)]
  exact Real.sqrt_pos.mpr hinner

/-- get_w is zero (a degenerate waist) when Im(1/q) is positive: the
radicand is negative and the clamp fires. -/
lemma get_w_zero (q : ℂ) (eta lam : ℝ) (heta : 0 < eta) (hlam : 0 < lam)
    (hqi : 0 < (q⁻¹).im) : get_w q eta lam = 0 := by
  simp only [get_w]
  rw [if_pos]
  apply div_neg_of_neg_of_pos
  · linarith
  · exact mul_pos (mul_pos Real.pi_pos heta) hqi

/-- get_b is nonzero whenever Im(1/q) is nonzero. -/
lemma get_b_ne_zero (q : ℂ) (hqi : (q⁻¹).im ≠ 0) : get_b q ≠ 0 := by
  rw [get_b]
  exact div_ne_zero (by norm_num) hqi

/-- A complex number in the open upper half plane has a reciprocal in
the open lower half plane. -/
lemma inv_im_neg_of_im_pos (q : ℂ) (hq : 0 < q.im) : (q⁻¹).im < 0 := by
  rw [Complex.inv_im]
  have hq0 : q ≠ 0 := by
    intro h
    rw [h] at hq
    simp at hq
  exact div_neg_of_neg_of_pos (by linarith) (Complex.normSq_pos.mpr hq0)

/-- The stable eigenmode lies in the open upper half plane when B is
negative and eta positive. -/
lemma calculate_eigenmode_im_pos (M : TransferMatrix) (eta : ℝ) (hm : |get_m M| < 1)
    (hB : M.B < 0) (heta : 0 < eta) : 0 < (calculate_eigenmode M eta).im := by
  have h4 := trace_sq_lt_four M hm
  have ht : 0 < Real.sqrt (4 - (M.A + M.D) ^ 2) := Real.sqrt_pos.mpr (by linarith)
  rw [calculate_eigenmode_im_eq M eta hm]
  have hns : 0 < Complex.normSq (((M.D - M.A : ℝ) : ℂ) +
      Complex.I * ((Real.sqrt (4 - (M.A + M.D) ^ 2) : ℝ) : ℂ)) :=
    Complex.normSq_pos.mpr (eigen_denom_ne_zero _ _ ht.ne')
  apply div_pos _ hns
  nlinarith [mul_neg_of_neg_of_pos hB (mul_pos heta ht)]

/-- C10 (amended): for a parameter record with positive f, l, v and
wavelength, eta at least 1, positive cos(alpha), the additional geometry
condition f < v*cos(alpha), and s strictly inside the intersected
stability bounds, solve_cavity succeeds and all the unguarded divisors
of its result assembly are nonzero: both waists at the crystal, both
waists at the secondary focus, and both crystal confocal parameters.
The geometry condition is forced: for f > v*cos(alpha) the tangential
matrix B entry is positive inside the stability interval, Im(1/q) is
positive, the get_w radicand is negative and the tangential crystal
waist is 0, so the ellipticity divides by zero (see the
counterexample). -/
theorem c10_stable_divisors_nonzero (p : CavityParameters)
    (hf : 0 < p.f) (hl : 0 < p.l) (hv : 0 < p.v) (hlam : 0 < p.wavelength)
    (heta1 : 1 ≤ p.eta) (hc : 0 < Real.cos p.alpha)
    (hfv : p.f < p.v * Real.cos p.alpha)
    (hlo : (s_bounds p).1 < p.s) (hhi : p.s < (s_bounds p).2) :
    ∃ r, solve_cavity p = Except.ok r ∧
      r.w_t_crystal ≠ 0 ∧ r.w_s_crystal ≠ 0 ∧ r.w_t_collimated ≠ 0 ∧
      r.w_s_collimated ≠ 0 ∧ r.b_t_crystal ≠ 0 ∧ r.b_s_crystal ≠ 0 := by
  have he0 : (0 : ℝ) < p.eta := lt_of_lt_of_le one_pos heta1
  have hfne : p.f ≠ 0 := hf.ne'
  have hene : p.eta ≠ 0 := he0.ne'
  have hcne : Real.cos p.alpha ≠ 0 := hc.ne'
  have hcle : Real.cos p.alpha ≤ 1 := Real.cos_le_one p.alpha
  have hcinv1 : 1 ≤ (Real.cos p.alpha)⁻¹ := (one_le_inv₀ hc).mpr hcle
  have hvw : p.f < p.v * (Real.cos p.alpha)⁻¹ := by
    have h1 : p.v * Real.cos p.alpha ≤ p.v * (Real.cos p.alpha)⁻¹ := by
      apply mul_le_mul_of_nonneg_left _ hv.le
      calc Real.cos p.alpha ≤ 1 := hcle
        _ ≤ (Real.cos p.alpha)⁻¹ := hcinv1
    linarith
  have hdt : -p.f + p.v * (Real.cos p.alpha)⁻¹ ≠ 0 := by
    have : 0 < -p.f + p.v * (Real.cos p.alpha)⁻¹ := by linarith
    exact this.ne'
  have hds : -p.f + p.v * Real.cos p.alpha ≠ 0 := by
    have : 0 < -p.f + p.v * Real.cos p.alpha := by linarith
    exact this.ne'
  have hlo_t : (s_bounds_tangential p).1 < p.s := lt_of_le_of_lt (le_max_left _ _) hlo
  have hlo_s : (s_bounds_sagittal p).1 < p.s := lt_of_le_of_lt (le_max_right _ _) hlo
  have hhi_t : p.s < (s_bounds_tangential p).2 := lt_of_lt_of_le hhi (min_le_left _ _)
  have hhi_s : p.s < (s_bounds_sagittal p).2 := lt_of_lt_of_le hhi (min_le_right _ _)
  have hm_t : |get_m (construct_tangential_matrix p)| < 1 :=
    (tangential_plane_stability p hfne hene hcne hdt).1 p.s hlo_t hhi_t
  have hm_s : |get_m (construct_sagittal_matrix p)| < 1 :=
    (sagittal_plane_stability p hfne hene hcne hds).1 p.s hlo_s hhi_s
  have hB_t : (construct_tangential_matrix p).B < 0 :=
    tangential_B_neg p hfne hene hc hvw hlo_t hhi_t
  have hB_s : (construct_sagittal_matrix p).B < 0 :=
    sagittal_B_neg p hfne hene hc hfv hlo_s hhi_s
  have ht_t : 0 < Real.sqrt (4 - ((construct_tangential_matrix p).A
      + (construct_tangential_matrix p).D) ^ 2) :=
    Real.sqrt_pos.mpr (by nlinarith [trace_sq_lt_four _ hm_t])
  have ht_s : 0 < Real.sqrt (4 - ((construct_sagittal_matrix p).A
      + (construct_sagittal_matrix p).D) ^ 2) :=
    Real.sqrt_pos.mpr (by nlinarith [trace_sq_lt_four _ hm_s])
  have hqt_inv : ((calculate_eigenmode (construct_tangential_matrix p) p.eta)⁻¹).im < 0 := by
    rw [calculate_eigenmode_inv_im _ _ hm_t]
    exact div_neg_of_pos_of_neg ht_t (by nlinarith)
  have hqs_inv : ((calculate_eigenmode (construct_sagittal_matrix p) p.eta)⁻¹).im < 0 := by
    rw [calculate_eigenmode_inv_im _ _ hm_s]
    exact div_neg_of_pos_of_neg ht_s (by nlinarith)
  have hqt_im : 0 < (calculate_eigenmode (construct_tangential_matrix p) p.eta).im :=
    calculate_eigenmode_im_pos _ _ hm_t hB_t he0
  have hqs_im : 0 < (calculate_eigenmode (construct_sagittal_matrix p) p.eta).im :=
    calculate_eigenmode_im_pos _ _ hm_s hB_s he0
  have hqtc_im : 0 < (propagate (calculate_eigenmode (construct_tangential_matrix p) p.eta)
      (construct_secondary_focus_matrix_tangential p) 1 p.eta).im :=
    propagate_one_im_pos _ _ _ (secondary_focus_tangential_det p hfne hene hcne) he0 hqt_im
  have hqsc_im : 0 < (propagate (calculate_eigenmode (construct_sagittal_matrix p) p.eta)
      (construct_secondary_focus_matrix_sagittal p) 1 p.eta).im :=
    propagate_one_im_pos _ _ _ (secondary_focus_sagittal_det p hfne hene hcne) he0 hqs_im
  have hcond : ¬(p.s < (s_bounds p).1 ∨ p.s > (s_bounds p).2) := by
    push_neg
    exact ⟨hlo.le, hhi.le⟩
  refine ⟨cavityRecord p, ?_, ?_, ?_, ?_, ?_, ?_, ?_⟩
  · simp only [solve_cavity]
    rw [if_neg hcond]
  · simp only [cavityRecord]
    exact (get_w_pos _ _ _ he0 hlam hqt_inv).ne'
  · simp only [cavityRecord]
    exact (get_w_pos _ _ _ he0 hlam hqs_inv).ne'
  · simp only [cavityRecord]
    exact (get_w_pos _ _ _ one_pos hlam (inv_im_neg_of_im_pos _ hqtc_im)).ne'
  · simp only [cavityRecord]
    exact (get_w_pos _ _ _ one_pos hlam (inv_im_neg_of_im_pos _ hqsc_im)).ne'
  · simp only [cavityRecord]
    exact get_b_ne_zero _ hqt_inv.ne
  · simp only [cavityRecord]
    exact get_b_ne_zero _ hqs_inv.ne

/-- Parameter record with f > v*cos(alpha) whose tangential matrix has a
positive B entry inside the stability interval, driving the tangential
crystal waist to zero. -/
def c10CounterP : CavityParameters := ⟨1, 1/10, 1/2, 0, 1, 0, 1/2, false⟩

/-- C10 counterexample: a record satisfying all the data-model range
constraints with s strictly inside the stability bounds on which
solve_cavity succeeds but returns a zero tangential crystal waist, so
the ellipticity computation divides by zero. -/
theorem c10_counterexample :
    (0 < c10CounterP.f ∧ 0 < c10CounterP.l ∧ 0 < c10CounterP.v ∧
      0 < c10CounterP.wavelength ∧ 1 ≤ c10CounterP.eta) ∧
    ((s_bounds c10CounterP).1 < c10CounterP.s ∧ c10CounterP.s < (s_bounds c10CounterP).2) ∧
    ∃ r, solve_cavity c10CounterP = Except.ok r ∧ r.w_t_crystal = 0 := by
  have hbnd : s_bounds c10CounterP = (-(21/20), 19/20) := by
    simp only [s_bounds, s_bounds_tangential, s_bounds_sagittal, c10CounterP,
      Real.cos_zero, Bool.false_eq_true, if_false]
    norm_num [min_def, max_def]
  have hM : construct_tangential_matrix c10CounterP =
      ⟨-(1/20), 399/400, -1, -(1/20)⟩ := by
    simp only [construct_tangential_matrix, c10CounterP, Real.cos_zero, Bool.false_eq_true,
      if_false, TransferMatrix.mk.injEq]
    norm_num
  have hm : |get_m (construct_tangential_matrix c10CounterP)| < 1 := by
    rw [hM, get_m, abs_lt]
    norm_num
  have hqinv : 0 < ((calculate_eigenmode (construct_tangential_matrix c10CounterP)
      c10CounterP.eta)⁻¹).im := by
    rw [calculate_eigenmode_inv_im _ _ hm, hM]
    have h1 : (0 : ℝ) < Real.sqrt (4 - ((-(1/20) : ℝ) + -(1/20)) ^ 2) := by
      rw [Real.sqrt_pos]
      norm_num
    exact div_pos h1 (by norm_num [c10CounterP])
  have hcond : ¬(c10CounterP.s < (s_bounds c10CounterP).1 ∨
      c10CounterP.s > (s_bounds c10CounterP).2) := by
    rw [hbnd]
    push_neg
    norm_num [c10CounterP]
  refine ⟨⟨by norm_num [c10CounterP], by norm_num [c10CounterP], by norm_num [c10CounterP],
    by norm_num [c10CounterP], by norm_num [c10CounterP]⟩,
    ⟨by rw [hbnd]; norm_num [c10CounterP], by rw [hbnd]; norm_num [c10CounterP]⟩,
    cavityRecord c10CounterP, ?_, ?_⟩
  · simp only [solve_cavity]
    rw [if_neg hcond]
  · simp only [cavityRecord]
    exact get_w_zero _ _ _ (by norm_num [c10CounterP]) (by norm_num [c10CounterP]) hqinv

/-- Parameter record with f < v*cos(alpha) used as the C10 witness
input, stability interval (19/20, 39/20) and s = 3/2 inside it. -/
def c10WitnessP : CavityParameters := ⟨1, 1/10, 2, 3/2, 1, 0, 1/2, false⟩

/-- Witness for C10 at a concrete record satisfying every hypothesis of
the amended theorem. -/
theorem c10_stable_divisors_nonzero_witness :
    (0 < c10WitnessP.f ∧ 0 < c10WitnessP.l ∧ 0 < c10WitnessP.v ∧
      0 < c10WitnessP.wavelength ∧ 1 ≤ c10WitnessP.eta ∧
      0 < Real.cos c10WitnessP.alpha ∧
      c10WitnessP.f < c10WitnessP.v * Real.cos c10WitnessP.alpha ∧
      (s_bounds c10WitnessP).1 < c10WitnessP.s ∧
      c10WitnessP.s < (s_bounds c10WitnessP).2) ∧
    ∃ r, solve_cavity c10WitnessP = Except.ok r ∧
      r.w_t_crystal ≠ 0 ∧ r.w_s_crystal ≠ 0 ∧ r.w_t_collimated ≠ 0 ∧
      r.w_s_collimated ≠ 0 ∧ r.b_t_crystal ≠ 0 ∧ r.b_s_crystal ≠ 0 := by
  have hbnd : s_bounds c10WitnessP = (19/20, 39/20) := by
    simp only [s_bounds, s_bounds_tangential, s_bounds_sagittal, c10WitnessP,
      Real.cos_zero, Bool.false_eq_true, if_false]
    norm_num [min_def, max_def]
  have h1 : (0 : ℝ) < c10WitnessP.f := by norm_num [c10WitnessP]
  have h2 : (0 : ℝ) < c10WitnessP.l := by norm_num [c10WitnessP]
  have h3 : (0 : ℝ) < c10WitnessP.v := by norm_num [c10WitnessP]
  have h4 : (0 : ℝ) < c10WitnessP.wavelength := by norm_num [c10WitnessP]
  have h5 : (1 : ℝ) ≤ c10WitnessP.eta := by norm_num [c10WitnessP]
  have h6 : 0 < Real.cos c10WitnessP.alpha := by norm_num [c10WitnessP, Real.cos_zero]
  have h7 : c10WitnessP.f < c10WitnessP.v * Real.cos c10WitnessP.alpha := by
    norm_num [c10WitnessP, Real.cos_zero]
  have h8 : (s_bounds c10WitnessP).1 < c10WitnessP.s := by
    rw [hbnd]
    norm_num [c10WitnessP]
  have h9 : c10WitnessP.s < (s_bounds c10WitnessP).2 := by
    rw [hbnd]
    norm_num [c10WitnessP]
  exact ⟨⟨h1, h2, h3, h4, h5, h6, h7, h8, h9⟩,
    c10_stable_divisors_nonzero c10WitnessP h1 h2 h3 h4 h5 h6 h7 h8 h9⟩

end
